import Mathlib

/-!
Shallow embedding of a disk-resident B+ tree index (Go source: pager.go and
btree.go).  Pages are 4096-byte blocks modelled as functions `Nat → Nat`
(each byte taken mod 256 on read); the file is a byte store inside a `Pager`
structure that also tracks `fileSize` and `numPages` exactly as the Go
`Pager` does.  All multi-byte integers are little-endian; signed 64-bit
values are decoded with `u64ToInt` (two's complement) to mirror Go's
`int(binary.LittleEndian.Uint64(...))` conversions.
-/

namespace BTreeGo

/-- PAGE_SIZE from pager.go. -/
def PAGE_SIZE : Nat := 4096

/-- A page buffer: byte content addressed by offset. -/
def PageFn : Type := Nat → Nat

/-- Source `new(Page)` — a zero-filled page buffer. -/
def zeroPage : PageFn := fun _ => 0

/-- Write a single byte at an offset. -/
def setByte (p : PageFn) (off b : Nat) : PageFn :=
  fun i => if i = off then b else p i

/-- Little-endian read of `n` bytes starting at `off`
(`binary.LittleEndian.Uint16/Uint64`). -/
def leGet (p : PageFn) (off : Nat) : Nat → Nat
  | 0 => 0
  | n + 1 => p off % 256 + 256 * leGet p (off + 1) n

/-- Little-endian write of the low `8*n` bits of `v` starting at `off`
(`binary.LittleEndian.PutUint16/PutUint64`). -/
def lePut (p : PageFn) (off : Nat) : Nat → Nat → PageFn
  | 0, _ => p
  | n + 1, v => lePut (setByte p off (v % 256)) (off + 1) n (v / 256)

/-- Go's `copy(page[dst:], page[src:src+len])` (memmove semantics: the source
is read from the pre-copy contents). -/
def copyWithin (p : PageFn) (dst src len : Nat) : PageFn :=
  fun i => if dst ≤ i ∧ i < dst + len then p (src + (i - dst)) else p i

/-- Go's `clear(page[start:])`: zero all payload bytes from `start` to the
end of the page. -/
def clearFrom (p : PageFn) (start : Nat) : PageFn :=
  fun i => if start ≤ i ∧ i < PAGE_SIZE then 0 else p i

/-- Go's `uint64(x)` conversion of a signed 64-bit value. -/
def intToU64 (k : Int) : Nat := (k % (2 ^ 64 : Int)).toNat

/-- Go's `int(u)` / `int64(u)` conversion of a `uint64` (two's complement). -/
def u64ToInt (u : Nat) : Int :=
  if u < 2 ^ 63 then (u : Int) else (u : Int) - 2 ^ 64

/-! ### Page header accessors (btree.go lines 54-79) -/

/-- Source `isLeaf`: `page[nodeTypeOffset] == NodeTypeLeaf` (byte 0 equal to 0). -/
def isLeafP (p : PageFn) : Bool := p 0 % 256 = 0

/-- Assign `page[nodeTypeOffset]`. -/
def setNodeType (p : PageFn) (t : Nat) : PageFn := setByte p 0 t

/-- Source `isRoot`: byte 1 equal to 1. -/
def isRootP (p : PageFn) : Bool := p 1 % 256 = 1

/-- Source `setIsRoot`. -/
def setIsRootP (p : PageFn) (b : Bool) : PageFn :=
  setByte p 1 (if b then 1 else 0)

/-- Source `getParentPageID` (8 bytes at offset 8, signed). -/
def getParentPID (p : PageFn) : Int := u64ToInt (leGet p 8 8)

/-- Source `setParentPageID`. -/
def setParentPID (p : PageFn) (pid : Int) : PageFn :=
  lePut p 8 8 (intToU64 pid)

/-- Source `getNumKeys` (2 bytes at offset 16, unsigned). -/
def getNumKeysN (p : PageFn) : Nat := leGet p 16 2

/-- Source `setNumKeys` (stores the value mod 2^16, as `uint16(n)` does). -/
def setNumKeysP (p : PageFn) (n : Nat) : PageFn := lePut p 16 2 n

/-- Source `getNextLeafPageID` (8 bytes at offset 24, signed). -/
def getNextLeaf (p : PageFn) : Int := u64ToInt (leGet p 24 8)

/-- Source `setNextLeafPageID`. -/
def setNextLeafP (p : PageFn) (pid : Int) : PageFn :=
  lePut p 24 8 (intToU64 pid)

/-! ### Payload accessors.
Leaf entry `i`: key at offset `32 + 16*i`, record offset at `32 + 16*i + 8`.
Internal node: child pointer `i` at offset `32 + 16*i`, separator key `i`
at offset `32 + 16*i + 8` (so pointer `P0` sits at 32 and pair `(K_i, P_{i+1})`
follows — exactly the offsets used throughout btree.go). -/

/-- Key of leaf entry `i`. -/
def leafKey (p : PageFn) (i : Nat) : Int := u64ToInt (leGet p (32 + 16 * i) 8)

/-- Record offset of leaf entry `i`. -/
def leafVal (p : PageFn) (i : Nat) : Int :=
  u64ToInt (leGet p (32 + 16 * i + 8) 8)

/-- Separator key `i` (0-based) of an internal page. -/
def intlKey (p : PageFn) (i : Nat) : Int :=
  u64ToInt (leGet p (32 + 16 * i + 8) 8)

/-- Child pointer `i` of an internal page (`P0` at offset 32). -/
def childPID (p : PageFn) (i : Nat) : Int := u64ToInt (leGet p (32 + 16 * i) 8)

/-- The first `n` leaf entries, in slot order. -/
def readLeafEntries (p : PageFn) (n : Nat) : List (Int × Int) :=
  (List.range n).map fun i => (leafKey p i, leafVal p i)

/-- The first `n` separator keys of an internal page, in slot order. -/
def readInternalKeys (p : PageFn) (n : Nat) : List Int :=
  (List.range n).map fun i => intlKey p i

/-- The first `m` child pointers of an internal page, in slot order. -/
def readChildPIDs (p : PageFn) (m : Nat) : List Int :=
  (List.range m).map fun i => childPID p i

/-! ### Pager (pager.go) -/

/-- Pager error kinds (spec §7): `ReadPastEnd`, `IoRead`, `IoWrite`. -/
inductive PErr where
  | readPastEnd
  | ioRead
  | ioWrite
  deriving DecidableEq, Repr

/-- The Go `Pager`: the backing file's byte content and real length, plus the
tracked `fileSize` and `numPages` fields. -/
structure Pager where
  data : Nat → Nat
  fileLen : Nat
  fileSize : Int
  numPages : Int

/-- Source `NewPager` over an existing file with the given content and length
(fresh files have length 0): `numPages = fileSize / PageSize`. -/
def openPager (data : Nat → Nat) (len : Nat) : Pager :=
  ⟨data, len, (len : Int), (len : Int) / 4096⟩

/-- A pager over a fresh (empty) file. -/
def NewPagerEmpty : Pager := openPager (fun _ => 0) 0

/-- Closing the pager and re-opening a pager on the same file. -/
def reopenPager (p : Pager) : Pager := openPager p.data p.fileLen

/-- Source `ReadPage`: returns the caller's buffer together with the error, exactly
as the Go method does (callers sometimes ignore the error and use the
buffer).  `ReadPastEnd` when `pageID*PageSize ≥ fileSize` — the buffer is the
untouched `new(Page)` zero buffer, no bytes are read.  Otherwise Go's
`file.ReadAt` errors (partial read / negative offset) when the real file does
not contain 4096 bytes at the offset; the buffer then holds the prefix that
was read. -/
def ReadPageRaw (p : Pager) (pid : Int) : PageFn × Option PErr :=
  let off : Int := pid * 4096
  if off ≥ p.fileSize then (zeroPage, some .readPastEnd)
  else if off < 0 then (zeroPage, some .ioRead)
  else if off.toNat + 4096 > p.fileLen then
    ((fun i => if off.toNat + i < p.fileLen then p.data (off.toNat + i) else 0),
      some .ioRead)
  else ((fun i => p.data (off.toNat + i)), none)

/-- Source `ReadPage` as used by callers that check the error. -/
def ReadPage (p : Pager) (pid : Int) : Except PErr PageFn :=
  match ReadPageRaw p pid with
  | (_, some e) => .error e
  | (pg, none) => .ok pg

/-- Source `WritePage`: writes exactly 4096 bytes at `pageID*PageSize` (extending
the file, zero gap, as `WriteAt` does), then updates `fileSize`/`numPages`
if the write extended past the previous tracked end. -/
def WritePage (p : Pager) (pid : Int) (pg : PageFn) : Option PErr × Pager :=
  let off : Int := pid * 4096
  if off < 0 then (some .ioWrite, p)
  else
    let data' : Nat → Nat := fun i =>
      if off.toNat ≤ i ∧ i < off.toNat + 4096 then pg (i - off.toNat) else p.data i
    let fileLen' := max p.fileLen (off.toNat + 4096)
    if off + 4096 > p.fileSize then
      (none, ⟨data', fileLen', off + 4096, (off + 4096) / 4096⟩)
    else
      (none, ⟨data', fileLen', p.fileSize, p.numPages⟩)

/-- Source `AllocatePage`: returns the next page id (= current `numPages`),
increments `numPages`, adds `PageSize` to the tracked `fileSize` without
writing any bytes. -/
def AllocatePage (p : Pager) : Int × Pager :=
  (p.numPages, ⟨p.data, p.fileLen, p.fileSize + 4096, p.numPages + 1⟩)

/-- The 4096-byte window of the file holding page `pid`. -/
def filePage (p : Pager) (pid : Int) : PageFn :=
  fun i => p.data ((pid * 4096).toNat + i)

/-! ### B+ tree (btree.go) -/

/-- Tree operation errors: surfaced pager errors, `DuplicateKey`, and fuel
exhaustion (the Go loops/recursion have no fuel; `outOfFuel` marks runs
longer than the supplied bound). -/
inductive TErr where
  | pagerErr (e : PErr)
  | duplicateKey (k : Int)
  | outOfFuel
  deriving DecidableEq, Repr

/-- The `BPlusTree` struct: root page id and degree. -/
structure BPlusTree where
  rootPageID : Int
  degree : Int

/-- A tree together with its pager. -/
structure TreeState where
  tree : BPlusTree
  pager : Pager

/-- Source `NewBPlusTree`: `none` models the `degree < 3` panic.  On an empty file
page 0 is initialised as the empty root leaf and written (the `WritePage`
error is ignored by the source); otherwise root page id 0 is assumed. -/
def NewBPlusTree (p : Pager) (degree : Int) : Option TreeState :=
  if degree < 3 then none
  else if p.numPages = 0 then
    let pg0 :=
      setNextLeafP
        (setNumKeysP (setParentPID (setIsRootP (setNodeType zeroPage 0) true) (-1)) 0)
        (-1)
    let r := WritePage p 0 pg0
    some ⟨⟨0, degree⟩, r.2⟩
  else some ⟨⟨0, degree⟩, p⟩

/-- The descent scan in `findLeafPage`: first index `i` with `key < K_i`,
else the number of keys. -/
def childIndexScan : List Int → Int → Nat
  | [], _ => 0
  | ki :: rest, k => if k < ki then 0 else childIndexScan rest k + 1

/-- Source `findLeafPage`'s loop: descend from `pid` until a leaf page is reached. -/
def findLeafAux (p : Pager) (key : Int) : Int → Nat → Except TErr Int
  | _, 0 => .error .outOfFuel
  | pid, fuel + 1 =>
    match ReadPage p pid with
    | .error e => .error (.pagerErr e)
    | .ok pg =>
      if isLeafP pg then .ok pid
      else
        let n := getNumKeysN pg
        let i := childIndexScan (readInternalKeys pg n) key
        findLeafAux p key (childPID pg i) fuel

/-- The linear scan in `Search`: first entry with an exactly matching key,
else `(0, false)`. -/
def lookupKey : List (Int × Int) → Int → Int × Bool
  | [], _ => (0, false)
  | (ck, cv) :: rest, k => if ck = k then (cv, true) else lookupKey rest k

/-- Source `Search(key)`. -/
def Search (st : TreeState) (key : Int) (fuel : Nat) : Except TErr (Int × Bool) :=
  match findLeafAux st.pager key st.tree.rootPageID fuel with
  | .error e => .error e
  | .ok L =>
    match ReadPage st.pager L with
    | .error e => .error (.pagerErr e)
    | .ok pg => .ok (lookupKey (readLeafEntries pg (getNumKeysN pg)) key)

/-- The per-leaf scan of `SearchRange`: emit offsets of entries with
`startKey ≤ k ≤ endKey`; the boolean is the `foundEnd` flag (a key
`> endKey` was observed, stopping the whole walk). -/
def scanEntries : List (Int × Int) → Int → Int → List Int × Bool
  | [], _, _ => ([], false)
  | (ck, cv) :: rest, startK, endK =>
    if endK < ck then ([], true)
    else
      let r := scanEntries rest startK endK
      if startK ≤ ck then (cv :: r.1, r.2) else r

/-- The leaf walk of `SearchRange`: follow `next_leaf_page_id` until `-1`
or `foundEnd`. -/
def walkRange (p : Pager) (startK endK : Int) : Int → Nat → Except TErr (List Int)
  | pid, 0 => if pid = -1 then .ok [] else .error .outOfFuel
  | pid, fuel + 1 =>
    if pid = -1 then .ok []
    else
      match ReadPage p pid with
      | .error e => .error (.pagerErr e)
      | .ok pg =>
        let r := scanEntries (readLeafEntries pg (getNumKeysN pg)) startK endK
        if r.2 then .ok r.1
        else
          match walkRange p startK endK (getNextLeaf pg) fuel with
          | .error e => .error e
          | .ok rest => .ok (r.1 ++ rest)

/-- Source `SearchRange(startKey, endKey)`. -/
def SearchRange (st : TreeState) (startK endK : Int) (f1 f2 : Nat) :
    Except TErr (List Int) :=
  if startK > endK then .ok []
  else
    match findLeafAux st.pager startK st.tree.rootPageID f1 with
    | .error e => .error e
    | .ok L => walkRange st.pager startK endK L f2

/-! ### Insert (btree.go lines 167-406) -/

/-- Duplicate check scan in `Insert`. -/
def hasKey : List (Int × Int) → Int → Bool
  | [], _ => false
  | (ck, _) :: rest, k => if ck = k then true else hasKey rest k

/-- The position scan in `insertIntoLeaf`: first index whose key is not
less than the new key (`for ... key > stored ...`). -/
def insertIndexLeaf : List (Int × Int) → Int → Nat
  | [], _ => 0
  | (ck, _) :: rest, k => if k > ck then insertIndexLeaf rest k + 1 else 0

/-- Source `insertIntoLeaf`: shift the trailing entries right by 16 bytes with
`copy`, write the new entry, bump `num_keys`. -/
def insertIntoLeafP (pg : PageFn) (key value : Int) : PageFn :=
  let n := getNumKeysN pg
  let iI := insertIndexLeaf (readLeafEntries pg n) key
  let pg1 := copyWithin pg (32 + 16 * (iI + 1)) (32 + 16 * iI)
      (min (PAGE_SIZE - (32 + 16 * (iI + 1))) (16 * n - 16 * iI))
  let pg2 := lePut pg1 (32 + 16 * iI) 8 (intToU64 key)
  let pg3 := lePut pg2 (32 + 16 * iI + 8) 8 (intToU64 value)
  setNumKeysP pg3 (n + 1)

/-- The temp-sequence construction in `splitAndInsertLeaf`: existing sorted
entries with the new entry inserted before the first strictly greater key
(the `inserted` flag loop). -/
def buildTempLeaf : List (Int × Int) → Int → Int → List (Int × Int)
  | [], k, v => [(k, v)]
  | (ck, cv) :: rest, k, v =>
    if k < ck then (k, v) :: (ck, cv) :: rest
    else (ck, cv) :: buildTempLeaf rest k v

/-- The entry-writing loop (`for i, k := range keys`) of the split routines,
writing entry `j` of the list at slot `start + j`. -/
def writeLeafEntries (pg : PageFn) : List (Int × Int) → Nat → PageFn
  | [], _ => pg
  | (k, v) :: rest, i =>
    writeLeafEntries
      (lePut (lePut pg (32 + 16 * i) 8 (intToU64 k)) (32 + 16 * i + 8) 8 (intToU64 v))
      rest (i + 1)

/-- Outcome of a split routine: pager error if a checked write failed, the
state after the split's writes, the promoted key, the new page id, and the
parent page id to recurse on. -/
structure SplitOut where
  err : Option PErr
  st : TreeState
  promoted : Int
  newPID : Int
  parentPID : Int

/-- Source `splitAndInsertLeaf` up to (not including) the `insertIntoParent` call:
allocate the new page, build the temp sequence, distribute
`⌊D/2⌋`/`⌈D/2⌉`, stitch sibling links, persist both pages. -/
def leafSplitCore (st : TreeState) (oldPID : Int) (oldPage : PageFn)
    (key value : Int) : SplitOut :=
  let a := AllocatePage st.pager
  let newPID := a.1
  let p1 := a.2
  let newPage0 := setParentPID (setNodeType zeroPage 0) (getParentPID oldPage)
  let n := getNumKeysN oldPage
  let temp := buildTempLeaf (readLeafEntries oldPage n) key value
  let sp := (st.tree.degree / 2).toNat
  let leftEs := temp.take sp
  let rightEs := temp.drop sp
  let promote := (rightEs.headD (0, 0)).1
  let old1 := writeLeafEntries (setNumKeysP (clearFrom oldPage 32) leftEs.length) leftEs 0
  let new1 := writeLeafEntries (setNumKeysP newPage0 rightEs.length) rightEs 0
  let new2 := setNextLeafP new1 (getNextLeaf old1)
  let old2 := setNextLeafP old1 newPID
  let w1 := WritePage p1 oldPID old2
  match w1.1 with
  | some e => ⟨some e, ⟨st.tree, w1.2⟩, promote, newPID, getParentPID old2⟩
  | none =>
    let w2 := WritePage w1.2 newPID new2
    match w2.1 with
    | some e => ⟨some e, ⟨st.tree, w2.2⟩, promote, newPID, getParentPID old2⟩
    | none => ⟨none, ⟨st.tree, w2.2⟩, promote, newPID, getParentPID old2⟩

/-- The splice-position scan of the internal split (`for ... key >
tempKeys[insertIndex] ...`). -/
def spliceIndex : List Int → Int → Nat
  | [], _ => 0
  | ki :: rest, k => if k > ki then spliceIndex rest k + 1 else 0

/-- The pair-writing loop of the internal split: key `j` at
`32 + 16*(start+j) + 8` and pointer `j+1` at `32 + 16*(start+j) + 16`. -/
def writePairs (pg : PageFn) : List (Int × Int) → Nat → PageFn
  | [], _ => pg
  | (k, pt) :: rest, i =>
    writePairs
      (lePut (lePut pg (32 + 16 * i + 8) 8 (intToU64 k)) (32 + 16 * i + 16) 8 (intToU64 pt))
      rest (i + 1)

/-- Writing an internal node's payload: `P0` at offset 32, then the
key/pointer pairs. -/
def writeInternalNode (pg : PageFn) (keys ptrs : List Int) : PageFn :=
  writePairs (lePut pg 32 8 (intToU64 (ptrs.headD 0))) (keys.zip ptrs.tail) 0

/-- The child-reparenting loop of the internal split: for each moved child,
read its page, rewrite `parent_page_id`, persist — read and write errors are
silently ignored, exactly as in the source. -/
def reparentChildren (p : Pager) (newPID : Int) : List Int → Pager
  | [] => p
  | pid :: rest =>
    let rd := ReadPageRaw p pid
    let w := WritePage p pid (setParentPID rd.1 newPID)
    reparentChildren w.2 newPID rest

/-- The full-internal-node split of `insertIntoParent` (lines 335-402),
up to (not including) the recursive `insertIntoParent` call. -/
def internalSplitCore (st : TreeState) (parentPID : Int) (parentPage : PageFn)
    (key rightChildID : Int) : SplitOut :=
  let a := AllocatePage st.pager
  let newPID := a.1
  let p1 := a.2
  let newPage0 := setParentPID (setNodeType zeroPage 1) (getParentPID parentPage)
  let n := getNumKeysN parentPage
  let tempKeys0 := readInternalKeys parentPage n
  let tempPtrs0 := readChildPIDs parentPage (n + 1)
  let iI := spliceIndex tempKeys0 key
  let tempKeys := tempKeys0.take iI ++ key :: tempKeys0.drop iI
  let tempPtrs := tempPtrs0.take (iI + 1) ++ rightChildID :: tempPtrs0.drop (iI + 1)
  let sp := (st.tree.degree / 2).toNat
  let promote := tempKeys.getD sp 0
  let leftKeys := tempKeys.take sp
  let rightKeys := tempKeys.drop (sp + 1)
  let leftPtrs := tempPtrs.take (sp + 1)
  let rightPtrs := tempPtrs.drop (sp + 1)
  let par1 := writeInternalNode (setNumKeysP (clearFrom parentPage 32) leftKeys.length)
      leftKeys leftPtrs
  let new1 := writeInternalNode (setNumKeysP newPage0 rightKeys.length) rightKeys rightPtrs
  let p2 := reparentChildren p1 newPID rightPtrs
  let w1 := WritePage p2 parentPID par1
  match w1.1 with
  | some e => ⟨some e, ⟨st.tree, w1.2⟩, promote, newPID, getParentPID par1⟩
  | none =>
    let w2 := WritePage w1.2 newPID new1
    match w2.1 with
    | some e => ⟨some e, ⟨st.tree, w2.2⟩, promote, newPID, getParentPID par1⟩
    | none => ⟨none, ⟨st.tree, w2.2⟩, promote, newPID, getParentPID par1⟩

/-- Source `insertIntoParent(parentPageID, leftChildID, key, rightChildID)`.
Covers the three branches of the source: new-root creation, splice into a
non-full parent (including the byte-for-byte `copy(parentPage[ptrStart+32:],
parentPage[ptrStart+16:])` shift), and the full internal split followed by
the bounded recursion (fuel). -/
def insertIntoParent (st : TreeState) (parentPID leftChildID : Int)
    (key : Int) (rightChildID : Int) : Nat → Option TErr × TreeState
  | 0 => (some .outOfFuel, st)
  | fuel + 1 =>
    if parentPID = -1 then
      let a := AllocatePage st.pager
      let newRootPID := a.1
      let p1 := a.2
      let nr :=
        lePut
          (lePut
            (lePut
              (setNumKeysP (setParentPID (setIsRootP (setNodeType zeroPage 1) true) (-1)) 1)
              32 8 (intToU64 leftChildID))
            40 8 (intToU64 key))
          48 8 (intToU64 rightChildID)
      let lrd := ReadPageRaw p1 leftChildID
      let lw := WritePage p1 leftChildID (setParentPID (setIsRootP lrd.1 false) newRootPID)
      let rrd := ReadPageRaw lw.2 rightChildID
      let rw := WritePage lw.2 rightChildID (setParentPID (setIsRootP rrd.1 false) newRootPID)
      let w3 := WritePage rw.2 newRootPID nr
      match w3.1 with
      | some e => (some (.pagerErr e), ⟨st.tree, w3.2⟩)
      | none => (none, ⟨⟨newRootPID, st.tree.degree⟩, w3.2⟩)
    else
      match ReadPage st.pager parentPID with
      | .error e => (some (.pagerErr e), st)
      | .ok parentPage =>
        let n := getNumKeysN parentPage
        if (n : Int) < st.tree.degree - 1 then
          let iI := childIndexScan (readInternalKeys parentPage n) key
          let keyStart := 32 + 16 * iI + 8
          let ptrStart := keyStart - 8
          let pg1 := copyWithin parentPage (ptrStart + 32) (ptrStart + 16)
              (PAGE_SIZE - (ptrStart + 32))
          let pg2 := lePut pg1 keyStart 8 (intToU64 key)
          let pg3 := lePut pg2 (keyStart + 8) 8 (intToU64 rightChildID)
          let pg4 := setNumKeysP pg3 (n + 1)
          let w := WritePage st.pager parentPID pg4
          (w.1.map .pagerErr, ⟨st.tree, w.2⟩)
        else
          let o := internalSplitCore st parentPID parentPage key rightChildID
          match o.err with
          | some e => (some (.pagerErr e), o.st)
          | none => insertIntoParent o.st o.parentPID parentPID o.promoted o.newPID fuel

/-- Source `splitAndInsertLeaf`. -/
def splitAndInsertLeaf (st : TreeState) (oldPID : Int) (oldPage : PageFn)
    (key value : Int) (fuel : Nat) : Option TErr × TreeState :=
  let o := leafSplitCore st oldPID oldPage key value
  match o.err with
  | some e => (some (.pagerErr e), o.st)
  | none => insertIntoParent o.st o.parentPID oldPID o.promoted o.newPID fuel

/-- Source `Insert(key, value)`.  `none` in the first component means success. -/
def Insert (st : TreeState) (key value : Int) (fuel : Nat) :
    Option TErr × TreeState :=
  match findLeafAux st.pager key st.tree.rootPageID fuel with
  | .error e => (some e, st)
  | .ok L =>
    match ReadPage st.pager L with
    | .error e => (some (.pagerErr e), st)
    | .ok pg =>
      let n := getNumKeysN pg
      if hasKey (readLeafEntries pg n) key then (some (.duplicateKey key), st)
      else if (n : Int) < st.tree.degree - 1 then
        let w := WritePage st.pager L (insertIntoLeafP pg key value)
        (w.1.map .pagerErr, ⟨st.tree, w.2⟩)
      else splitAndInsertLeaf st L pg key value fuel

/-- The leaf chain from page `pid`: concatenated entries of the leaves
reached by following `next_leaf_page_id`, `none` if a page cannot be read,
a non-leaf page is encountered, or the fuel runs out before `-1`.  Used to
state the range-scan claims ("the leaves form a valid linked chain"). -/
def chainEntries (p : Pager) : Int → Nat → Option (List (Int × Int))
  | pid, 0 => if pid = -1 then some [] else none
  | pid, fuel + 1 =>
    if pid = -1 then some []
    else
      match ReadPage p pid with
      | .error _ => none
      | .ok pg =>
        if isLeafP pg then
          (chainEntries p (getNextLeaf pg) fuel).map
            (readLeafEntries pg (getNumKeysN pg) ++ ·)
        else none

/-- A value representable by Go's signed 64-bit `int`/`int64`. -/
def inRange64 (k : Int) : Prop := -(2 ^ 63) ≤ k ∧ k < 2 ^ 63

instance (k : Int) : Decidable (inRange64 k) := by
  unfold inRange64; infer_instance

/-- The pager bookkeeping invariant: the tracked file size always equals
`numPages * PAGE_SIZE`. -/
def PagerInv (p : Pager) : Prop := p.fileSize = p.numPages * 4096

instance (p : Pager) : Decidable (PagerInv p) := by
  unfold PagerInv; infer_instance

/-! ### Concrete scenario (degree 3, keys 10, 20, 30, 5, 15)

Successful inserts from an empty file.  Inserting 30 splits leaf 0 into
leaves 0 and 1 and creates root page 2 with separator 20; inserting 15
splits leaf 0 again (new leaf 3, promoted key 10), and the promoted key is
spliced into the non-full root by `insertIntoParent`. -/

/-- Fresh tree over an empty file, degree 3.  (`NewBPlusTree` only returns
`none` for degree < 3; the default branch is never taken.) -/
def s3_0 : TreeState :=
  match NewBPlusTree NewPagerEmpty 3 with
  | some st => st
  | none => ⟨⟨0, 3⟩, NewPagerEmpty⟩

/-- State after `Insert(10, 100)`. -/
def s3_1 : TreeState := (Insert s3_0 10 100 32).2

/-- State after `Insert(20, 200)`. -/
def s3_2 : TreeState := (Insert s3_1 20 200 32).2

/-- State after `Insert(30, 300)` (first leaf split, root page 2 created). -/
def s3_3 : TreeState := (Insert s3_2 30 300 32).2

/-- State after `Insert(5, 50)`. -/
def s3_4 : TreeState := (Insert s3_3 5 50 32).2

/-- State after `Insert(15, 150)` (second leaf split; promoted key 10 is
spliced into the non-full root). -/
def s3_5 : TreeState := (Insert s3_4 15 150 32).2

/-- Re-opening a pager on `s3_3`'s file and constructing a tree, as a fresh
process would (root page id hard-coded to 0). -/
def s3_3_reopened : TreeState :=
  match NewBPlusTree (reopenPager s3_3.pager) 3 with
  | some st => st
  | none => ⟨⟨0, 3⟩, NewPagerEmpty⟩

/-! Concrete inputs for the internal-split instance: a 7-page file, a tree
of degree 3, and a full internal page (separators 10, 20; children 3, 4, 5)
at page 2, about to absorb promoted key 30 with right child 6. -/

/-- A pager over a zero-filled 7-page file. -/
def c4Pager : Pager := openPager (fun _ => 0) 28672

/-- A degree-3 tree state over `c4Pager`. -/
def c4State : TreeState := ⟨⟨0, 3⟩, c4Pager⟩

/-- A full internal page: separators 10, 20 and children 3, 4, 5. -/
def c4Parent : PageFn := writeInternalNode (setNumKeysP zeroPage 2) [10, 20] [3, 4, 5]

end BTreeGo

deriving instance DecidableEq for Except

/-!
## Lemma library

Basic facts about the byte-level primitives, the 64-bit signed encoding,
and the pager, used by the claim theorems below.
-/

set_option maxRecDepth 100000

namespace BTreeGo

theorem setByte_self (p : PageFn) (off b : Nat) : setByte p off b off = b := by
  simp [setByte]

theorem setByte_other (p : PageFn) (off b i : Nat) (h : i ≠ off) :
    setByte p off b i = p i := by
  simp [setByte, h]

theorem lePut_outside : ∀ (n : Nat) (p : PageFn) (off v i : Nat),
    i < off ∨ off + n ≤ i → lePut p off n v i = p i := by
  intro n
  induction n with
  | zero => intro p off v i _; rfl
  | succ m ih =>
    intro p off v i h
    show lePut (setByte p off (v % 256)) (off + 1) m (v / 256) i = p i
    rw [ih _ _ _ _ (by omega)]
    exact setByte_other _ _ _ _ (by omega)

theorem leGet_congr : ∀ (n : Nat) (f g : PageFn) (off : Nat),
    (∀ i, i < n → f (off + i) = g (off + i)) → leGet f off n = leGet g off n := by
  intro n
  induction n with
  | zero => intro f g off _; rfl
  | succ m ih =>
    intro f g off h
    show f off % 256 + 256 * leGet f (off + 1) m =
      g off % 256 + 256 * leGet g (off + 1) m
    have h0 := h 0 (by omega)
    simp only [Nat.add_zero] at h0
    rw [h0, ih f g (off + 1) (fun i hi => by
      have h2 := h (i + 1) (by omega)
      rw [show off + 1 + i = off + (i + 1) by omega]
      exact h2)]

theorem leGet_lt : ∀ (n : Nat) (p : PageFn) (off : Nat), leGet p off n < 256 ^ n := by
  intro n
  induction n with
  | zero => intro p off; simp [leGet]
  | succ m ih =>
    intro p off
    show p off % 256 + 256 * leGet p (off + 1) m < 256 ^ (m + 1)
    have h1 : p off % 256 < 256 := Nat.mod_lt _ (by norm_num)
    have h2 := ih p (off + 1)
    calc p off % 256 + 256 * leGet p (off + 1) m
        ≤ 255 + 256 * leGet p (off + 1) m := by omega
      _ < 256 * (leGet p (off + 1) m + 1) := by omega
      _ ≤ 256 * 256 ^ m := Nat.mul_le_mul_left _ h2
      _ = 256 ^ (m + 1) := by rw [pow_succ]; ring

theorem leGet_lePut_self : ∀ (n : Nat) (p : PageFn) (off v : Nat),
    leGet (lePut p off n v) off n = v % 256 ^ n := by
  intro n
  induction n with
  | zero => intro p off v; simp [leGet, lePut, Nat.mod_one]
  | succ m ih =>
    intro p off v
    show (lePut (setByte p off (v % 256)) (off + 1) m (v / 256)) off % 256 +
        256 * leGet (lePut (setByte p off (v % 256)) (off + 1) m (v / 256)) (off + 1) m =
      v % 256 ^ (m + 1)
    rw [lePut_outside m _ (off + 1) (v / 256) off (by omega), setByte_self, ih]
    have h256 : (256 : Nat) ^ (m + 1) = 256 * 256 ^ m := by rw [pow_succ]; ring
    rw [h256, Nat.mod_mul]
    omega

theorem leGet_setByte_outside (p : PageFn) (j b n off : Nat)
    (h : j < off ∨ off + n ≤ j) : leGet (setByte p j b) off n = leGet p off n :=
  leGet_congr n _ _ off (fun i hi => setByte_other _ _ _ _ (by omega))

theorem leGet_lePut_outside (p : PageFn) (n1 off1 v n off : Nat)
    (h : off + n ≤ off1 ∨ off1 + n1 ≤ off) :
    leGet (lePut p off1 n1 v) off n = leGet p off n :=
  leGet_congr n _ _ off (fun i hi => lePut_outside n1 p off1 v (off + i) (by omega))

theorem intToU64_lt (k : Int) : intToU64 k < 2 ^ 64 := by
  unfold intToU64; omega

theorem u64ToInt_intToU64 (k : Int) (h1 : -(2 ^ 63) ≤ k) (h2 : k < 2 ^ 63) :
    u64ToInt (intToU64 k) = k := by
  unfold u64ToInt intToU64
  split <;> omega

theorem intToU64_u64ToInt (u : Nat) (h : u < 2 ^ 64) :
    intToU64 (u64ToInt u) = u := by
  unfold u64ToInt intToU64
  split <;> omega

theorem u64ToInt_range (u : Nat) (h : u < 2 ^ 64) : inRange64 (u64ToInt u) := by
  unfold u64ToInt inRange64
  split <;> omega

theorem inRange64_u64ToInt_leGet (p : PageFn) (off : Nat) :
    inRange64 (u64ToInt (leGet p off 8)) :=
  u64ToInt_range _ (by have := leGet_lt 8 p off; norm_num at this ⊢; omega)

end BTreeGo

namespace BTreeGo

/-! Byte lemmas for `clearFrom` and `copyWithin`. -/

theorem clearFrom_outside (p : PageFn) (start i : Nat)
    (h : i < start ∨ PAGE_SIZE ≤ i) : clearFrom p start i = p i := by
  unfold clearFrom PAGE_SIZE at *
  rw [if_neg (by omega)]

theorem clearFrom_inside (p : PageFn) (start i : Nat)
    (h : start ≤ i ∧ i < PAGE_SIZE) : clearFrom p start i = 0 := by
  unfold clearFrom PAGE_SIZE at *
  rw [if_pos (by omega)]

theorem copyWithin_outside (p : PageFn) (dst src len i : Nat)
    (h : i < dst ∨ dst + len ≤ i) : copyWithin p dst src len i = p i := by
  unfold copyWithin
  rw [if_neg (by omega)]

theorem copyWithin_inside (p : PageFn) (dst src len i : Nat)
    (h : dst ≤ i ∧ i < dst + len) : copyWithin p dst src len i = p (src + (i - dst)) := by
  unfold copyWithin
  rw [if_pos (by omega)]

/-! Header accessor lemmas: reading a field after writing it, and frame
lemmas across writes to disjoint byte ranges. -/

theorem getNumKeysN_setNumKeysP (p : PageFn) (m : Nat) (h : m < 65536) :
    getNumKeysN (setNumKeysP p m) = m := by
  unfold getNumKeysN setNumKeysP
  rw [leGet_lePut_self]
  have : (256 : Nat) ^ 2 = 65536 := by norm_num
  rw [this]
  omega

theorem getNextLeaf_setNextLeafP (p : PageFn) (x : Int) (h : inRange64 x) :
    getNextLeaf (setNextLeafP p x) = x := by
  unfold getNextLeaf setNextLeafP
  rw [leGet_lePut_self]
  have : intToU64 x % 256 ^ 8 = intToU64 x := by
    have := intToU64_lt x
    have h8 : (256 : Nat) ^ 8 = 2 ^ 64 := by norm_num
    rw [h8]; omega
  rw [this]
  exact u64ToInt_intToU64 x h.1 h.2

theorem getParentPID_setParentPID (p : PageFn) (x : Int) (h : inRange64 x) :
    getParentPID (setParentPID p x) = x := by
  unfold getParentPID setParentPID
  rw [leGet_lePut_self]
  have : intToU64 x % 256 ^ 8 = intToU64 x := by
    have := intToU64_lt x
    have h8 : (256 : Nat) ^ 8 = 2 ^ 64 := by norm_num
    rw [h8]; omega
  rw [this]
  exact u64ToInt_intToU64 x h.1 h.2

theorem getNumKeysN_setNextLeafP (p : PageFn) (x : Int) :
    getNumKeysN (setNextLeafP p x) = getNumKeysN p :=
  leGet_lePut_outside p 8 24 _ 2 16 (by omega)

theorem getNumKeysN_setParentPID (p : PageFn) (x : Int) :
    getNumKeysN (setParentPID p x) = getNumKeysN p :=
  leGet_lePut_outside p 8 8 _ 2 16 (by omega)

theorem getNumKeysN_setNodeType (p : PageFn) (t : Nat) :
    getNumKeysN (setNodeType p t) = getNumKeysN p :=
  leGet_setByte_outside p 0 t 2 16 (by omega)

theorem getNumKeysN_setIsRootP (p : PageFn) (b : Bool) :
    getNumKeysN (setIsRootP p b) = getNumKeysN p :=
  leGet_setByte_outside p 1 _ 2 16 (by omega)

theorem getNumKeysN_clearFrom32 (p : PageFn) :
    getNumKeysN (clearFrom p 32) = getNumKeysN p :=
  leGet_congr 2 _ _ 16 (fun i hi => clearFrom_outside p 32 (16 + i) (by omega))

theorem getNextLeaf_setNumKeysP (p : PageFn) (m : Nat) :
    getNextLeaf (setNumKeysP p m) = getNextLeaf p := by
  unfold getNextLeaf setNumKeysP
  rw [leGet_lePut_outside p 2 16 _ 8 24 (by omega)]

theorem getNextLeaf_setParentPID (p : PageFn) (x : Int) :
    getNextLeaf (setParentPID p x) = getNextLeaf p := by
  unfold getNextLeaf setParentPID
  rw [leGet_lePut_outside p 8 8 _ 8 24 (by omega)]

theorem getNextLeaf_clearFrom32 (p : PageFn) :
    getNextLeaf (clearFrom p 32) = getNextLeaf p := by
  unfold getNextLeaf
  rw [leGet_congr 8 _ _ 24 (fun i hi => clearFrom_outside p 32 (24 + i) (by omega))]

theorem getParentPID_setNodeType (p : PageFn) (t : Nat) :
    getParentPID (setNodeType p t) = getParentPID p := by
  unfold getParentPID setNodeType
  rw [leGet_setByte_outside p 0 t 8 8 (by omega)]

theorem getParentPID_setIsRootP (p : PageFn) (b : Bool) :
    getParentPID (setIsRootP p b) = getParentPID p := by
  unfold getParentPID setIsRootP
  rw [leGet_setByte_outside p 1 _ 8 8 (by omega)]

theorem getParentPID_setNumKeysP (p : PageFn) (m : Nat) :
    getParentPID (setNumKeysP p m) = getParentPID p := by
  unfold getParentPID setNumKeysP
  rw [leGet_lePut_outside p 2 16 _ 8 8 (by omega)]

theorem getParentPID_setNextLeafP (p : PageFn) (x : Int) :
    getParentPID (setNextLeafP p x) = getParentPID p := by
  unfold getParentPID setNextLeafP
  rw [leGet_lePut_outside p 8 24 _ 8 8 (by omega)]

theorem getParentPID_clearFrom32 (p : PageFn) :
    getParentPID (clearFrom p 32) = getParentPID p := by
  unfold getParentPID
  rw [leGet_congr 8 _ _ 8 (fun i hi => clearFrom_outside p 32 (8 + i) (by omega))]

/-! Congruence wrappers: the accessors only depend on bytes below 4096. -/

theorem getNumKeysN_congr (f g : PageFn) (h : ∀ i, i < 4096 → f i = g i) :
    getNumKeysN f = getNumKeysN g :=
  leGet_congr 2 f g 16 (fun i hi => h (16 + i) (by omega))

theorem getNextLeaf_congr (f g : PageFn) (h : ∀ i, i < 4096 → f i = g i) :
    getNextLeaf f = getNextLeaf g := by
  unfold getNextLeaf
  rw [leGet_congr 8 f g 24 (fun i hi => h (24 + i) (by omega))]

theorem getParentPID_congr (f g : PageFn) (h : ∀ i, i < 4096 → f i = g i) :
    getParentPID f = getParentPID g := by
  unfold getParentPID
  rw [leGet_congr 8 f g 8 (fun i hi => h (8 + i) (by omega))]

theorem readLeafEntries_congr (f g : PageFn) (n : Nat) (hn : 32 + 16 * n ≤ 4096)
    (h : ∀ i, i < 4096 → f i = g i) :
    readLeafEntries f n = readLeafEntries g n := by
  unfold readLeafEntries leafKey leafVal
  refine List.map_congr_left (fun i hi => ?_)
  rw [List.mem_range] at hi
  rw [leGet_congr 8 f g (32 + 16 * i) (fun j hj => h _ (by omega)),
    leGet_congr 8 f g (32 + 16 * i + 8) (fun j hj => h _ (by omega))]

theorem readInternalKeys_congr (f g : PageFn) (n : Nat) (hn : 32 + 16 * n + 8 ≤ 4096)
    (h : ∀ i, i < 4096 → f i = g i) :
    readInternalKeys f n = readInternalKeys g n := by
  unfold readInternalKeys intlKey
  refine List.map_congr_left (fun i hi => ?_)
  rw [List.mem_range] at hi
  rw [leGet_congr 8 f g (32 + 16 * i + 8) (fun j hj => h _ (by omega))]

theorem readChildPIDs_congr (f g : PageFn) (m : Nat) (hn : 32 + 16 * m ≤ 4096)
    (h : ∀ i, i < 4096 → f i = g i) :
    readChildPIDs f m = readChildPIDs g m := by
  unfold readChildPIDs childPID
  refine List.map_congr_left (fun i hi => ?_)
  rw [List.mem_range] at hi
  rw [leGet_congr 8 f g (32 + 16 * i) (fun j hj => h _ (by omega))]

end BTreeGo

namespace BTreeGo

/-! Pager-level lemmas. -/

theorem WritePage_fst (p : Pager) (pid : Int) (pg : PageFn) (h : 0 ≤ pid) :
    (WritePage p pid pg).1 = none := by
  simp only [WritePage]
  rw [if_neg (show ¬ (pid * 4096 : Int) < 0 by omega)]
  split <;> rfl

theorem WritePage_data_at (p : Pager) (pid : Int) (pg : PageFn) (i : Nat) (h : 0 ≤ pid) :
    (WritePage p pid pg).2.data i =
      if (pid * 4096).toNat ≤ i ∧ i < (pid * 4096).toNat + 4096 then
        pg (i - (pid * 4096).toNat)
      else p.data i := by
  simp only [WritePage]
  rw [if_neg (show ¬ (pid * 4096 : Int) < 0 by omega)]
  split <;> rfl

theorem filePage_WritePage_same (p : Pager) (pid : Int) (pg : PageFn) (i : Nat)
    (h : 0 ≤ pid) (hi : i < 4096) :
    filePage (WritePage p pid pg).2 pid i = pg i := by
  unfold filePage
  rw [WritePage_data_at p pid pg _ h, if_pos (by omega)]
  congr 1
  omega

theorem filePage_WritePage_other (p : Pager) (pid pid' : Int) (pg : PageFn) (i : Nat)
    (h : 0 ≤ pid) (h' : 0 ≤ pid') (hne : pid' ≠ pid) (hi : i < 4096) :
    filePage (WritePage p pid pg).2 pid' i = filePage p pid' i := by
  unfold filePage
  have hcond : ¬ ((pid * 4096).toNat ≤ (pid' * 4096).toNat + i ∧
      (pid' * 4096).toNat + i < (pid * 4096).toNat + 4096) := by omega
  rw [WritePage_data_at p pid pg _ h, if_neg hcond]

theorem WritePage_sizes_within (p : Pager) (pid : Int) (pg : PageFn)
    (h0 : 0 ≤ pid) (hsz : pid * 4096 + 4096 ≤ p.fileSize)
    (hlen : (pid * 4096).toNat + 4096 ≤ p.fileLen) :
    (WritePage p pid pg).2.fileSize = p.fileSize ∧
    (WritePage p pid pg).2.numPages = p.numPages ∧
    (WritePage p pid pg).2.fileLen = p.fileLen := by
  simp only [WritePage]
  rw [if_neg (show ¬ (pid * 4096 : Int) < 0 by omega),
    if_neg (show ¬ (pid * 4096 + 4096 : Int) > p.fileSize by omega)]
  refine ⟨rfl, rfl, ?_⟩
  show max p.fileLen ((pid * 4096).toNat + 4096) = p.fileLen
  omega

theorem ReadPageRaw_ok (p : Pager) (pid : Int) (h0 : 0 ≤ pid)
    (h1 : pid * 4096 + 4096 ≤ p.fileSize) (h2 : (pid * 4096).toNat + 4096 ≤ p.fileLen) :
    ReadPageRaw p pid = (filePage p pid, none) := by
  unfold ReadPageRaw filePage
  rw [if_neg (show ¬ (pid * 4096 : Int) ≥ p.fileSize by omega),
    if_neg (show ¬ (pid * 4096 : Int) < 0 by omega),
    if_neg (show ¬ (pid * 4096).toNat + 4096 > p.fileLen by omega)]

theorem ReadPage_ok (p : Pager) (pid : Int) (h0 : 0 ≤ pid)
    (h1 : pid * 4096 + 4096 ≤ p.fileSize) (h2 : (pid * 4096).toNat + 4096 ≤ p.fileLen) :
    ReadPage p pid = .ok (filePage p pid) := by
  unfold ReadPage
  rw [ReadPageRaw_ok p pid h0 h1 h2]

end BTreeGo

namespace BTreeGo

/-- C9: `read_page(page_id)` returns `ReadPastEnd` iff
`page_id * PAGE_SIZE ≥ file_size`, equivalently (given the pager size
invariant) iff `page_id ≥ num_pages`; on such a call the caller's buffer is
left untouched (no bytes are read). -/
theorem readPage_readPastEnd_iff (p : Pager) (pid : Int) (h0 : 0 ≤ pid)
    (hinv : PagerInv p) :
    ((ReadPageRaw p pid).2 = some .readPastEnd ↔ p.fileSize ≤ pid * 4096) ∧
    ((ReadPageRaw p pid).2 = some .readPastEnd ↔ p.numPages ≤ pid) ∧
    (p.fileSize ≤ pid * 4096 → (ReadPageRaw p pid).1 = zeroPage) := by
  unfold PagerInv at hinv
  by_cases hc : (pid * 4096 : Int) ≥ p.fileSize
  · have hraw : ReadPageRaw p pid = (zeroPage, some .readPastEnd) := by
      unfold ReadPageRaw
      rw [if_pos hc]
    rw [hraw]
    exact ⟨⟨fun _ => hc, fun _ => rfl⟩, ⟨fun _ => by omega, fun _ => rfl⟩,
      fun _ => rfl⟩
  · have h2 : ¬ p.fileSize ≤ pid * 4096 := hc
    have hraw : (ReadPageRaw p pid).2 = some .ioRead ∨ (ReadPageRaw p pid).2 = none := by
      unfold ReadPageRaw
      rw [if_neg hc]
      split
      · exact .inl rfl
      · split
        · exact .inl rfl
        · exact .inr rfl
    have hne : (ReadPageRaw p pid).2 ≠ some .readPastEnd := by
      rcases hraw with h | h <;> rw [h] <;> simp
    exact ⟨⟨fun hh => absurd hh hne, fun hh => absurd hh h2⟩,
      ⟨fun hh => absurd hh hne, fun hh => absurd (show p.fileSize ≤ pid * 4096 by omega) h2⟩,
      fun hh => absurd hh h2⟩

/-- Witness for C9 at a concrete one-page pager and page id 5. -/
theorem readPage_readPastEnd_iff_witness :
    (0 ≤ (5 : Int) ∧ PagerInv (openPager (fun _ => 0) 4096)) ∧
    (((ReadPageRaw (openPager (fun _ => 0) 4096) 5).2 = some .readPastEnd ↔
        (openPager (fun _ => 0) 4096).fileSize ≤ 5 * 4096) ∧
      ((ReadPageRaw (openPager (fun _ => 0) 4096) 5).2 = some .readPastEnd ↔
        (openPager (fun _ => 0) 4096).numPages ≤ 5) ∧
      ((openPager (fun _ => 0) 4096).fileSize ≤ 5 * 4096 →
        (ReadPageRaw (openPager (fun _ => 0) 4096) 5).1 = zeroPage)) :=
  ⟨⟨by decide, by decide⟩,
    readPage_readPastEnd_iff (openPager (fun _ => 0) 4096) 5 (by decide) (by decide)⟩

/-- C10: the invariant `file_size = num_pages * PAGE_SIZE` is established by
opening a file whose length is a multiple of PAGE_SIZE and preserved by
`allocate_page` and by every `write_page` (including file-extending ones). -/
theorem pager_size_invariant_preserved (p : Pager) (pid : Int) (pg : PageFn)
    (h : PagerInv p) :
    PagerInv (AllocatePage p).2 ∧ PagerInv (WritePage p pid pg).2 ∧
    (∀ (dat : Nat → Nat) (len : Nat), (4096 : Int) ∣ (len : Int) →
      PagerInv (openPager dat len)) := by
  refine ⟨?_, ?_, ?_⟩
  · unfold PagerInv at *
    show p.fileSize + 4096 = (p.numPages + 1) * 4096
    omega
  · by_cases hneg : (pid * 4096 : Int) < 0
    · simp only [WritePage]
      rw [if_pos hneg]
      exact h
    · simp only [WritePage]
      rw [if_neg hneg]
      by_cases hext : (pid * 4096 + 4096 : Int) > p.fileSize
      · rw [if_pos hext]
        unfold PagerInv
        show pid * 4096 + 4096 = (pid * 4096 + 4096) / 4096 * 4096
        have h1 : (pid * 4096 + 4096 : Int) = (pid + 1) * 4096 := by ring
        rw [h1, Int.mul_ediv_cancel _ (by norm_num)]
      · rw [if_neg hext]
        exact h
  · intro dat len hdvd
    unfold PagerInv openPager
    show (len : Int) = (len : Int) / 4096 * 4096
    exact (Int.ediv_mul_cancel hdvd).symm

/-- Witness for C10 at a concrete one-page pager, writing page 3. -/
theorem pager_size_invariant_preserved_witness :
    PagerInv (openPager (fun _ => 0) 4096) ∧
    (PagerInv (AllocatePage (openPager (fun _ => 0) 4096)).2 ∧
      PagerInv (WritePage (openPager (fun _ => 0) 4096) 3 zeroPage).2 ∧
      (∀ (dat : Nat → Nat) (len : Nat), (4096 : Int) ∣ (len : Int) →
        PagerInv (openPager dat len))) :=
  ⟨by decide, pager_size_invariant_preserved (openPager (fun _ => 0) 4096) 3 zeroPage (by decide)⟩

end BTreeGo

namespace BTreeGo

/-- C6: if the key is already present in the leaf reached by the descent,
`Insert` fails with the duplicate-key error and returns with the tree and
the pager (file bytes, sizes, bookkeeping) exactly as they were: no write
is performed. -/
theorem insert_duplicate_no_write (st : TreeState) (k v : Int) (f : Nat) (L : Int)
    (hfind : findLeafAux st.pager k st.tree.rootPageID f = .ok L)
    (hread : (ReadPageRaw st.pager L).2 = none)
    (hdup : hasKey (readLeafEntries (ReadPageRaw st.pager L).1
      (getNumKeysN (ReadPageRaw st.pager L).1)) k = true) :
    Insert st k v f = (some (.duplicateKey k), st) := by
  have hrp : ReadPage st.pager L = .ok (ReadPageRaw st.pager L).1 := by
    unfold ReadPage
    rcases hx : ReadPageRaw st.pager L with ⟨pg, e⟩
    rw [hx] at hread
    simp only at hread
    subst hread
    rfl
  unfold Insert
  split
  · rename_i e heq
    rw [hfind] at heq
    cases heq
  · rename_i L' heq
    rw [hfind] at heq
    injection heq with hL
    subst hL
    split
    · rename_i e heq2
      rw [hrp] at heq2
      cases heq2
    · rename_i pg heq2
      rw [hrp] at heq2
      injection heq2 with hpg
      subst hpg
      rw [if_pos hdup]

/-- Witness for C6: inserting key 10 again into the tree holding (10, 100). -/
theorem insert_duplicate_no_write_witness :
    (findLeafAux s3_1.pager 10 s3_1.tree.rootPageID 32 = .ok 0 ∧
      (ReadPageRaw s3_1.pager 0).2 = none ∧
      hasKey (readLeafEntries (ReadPageRaw s3_1.pager 0).1
        (getNumKeysN (ReadPageRaw s3_1.pager 0).1)) 10 = true) ∧
    Insert s3_1 10 999 32 = (some (.duplicateKey 10), s3_1) :=
  ⟨⟨by decide, by decide, by decide⟩,
    insert_duplicate_no_write s3_1 10 999 32 0 (by decide) (by decide) (by decide)⟩

/-- C7 counterexample: after inserting 10, 20, 30 with offsets 100, 200, 300
(degree 3) the root has split (the live root is page 2).  Before closing,
`Search(30)` finds offset 300; a fresh tree over the re-opened file assumes
root page 0 (now a non-root leaf) and `Search(30)` returns not-found. -/
theorem reopen_loses_results :
    Search s3_3 30 32 = .ok (300, true) ∧
    s3_3.tree.rootPageID = 2 ∧
    s3_3_reopened.tree.rootPageID = 0 ∧
    Search s3_3_reopened 30 32 = .ok (0, false) := by
  decide

/-- C7 amended: provided the root never split (the tree's root page id is
still 0) and the tracked pager size matches the file (no pending
allocation), closing and re-opening a pager on the same file and
constructing a tree yields the very same state, hence identical `Search`
and `SearchRange` results for every key, range and fuel. -/
theorem reopen_preserves_queries (st : TreeState)
    (hroot : st.tree.rootPageID = 0)
    (hdeg : ¬ st.tree.degree < 3)
    (hsz : st.pager.fileSize = (st.pager.fileLen : Int))
    (hnp : st.pager.numPages = (st.pager.fileLen : Int) / 4096)
    (hne : st.pager.numPages ≠ 0) :
    ∃ st', NewBPlusTree (reopenPager st.pager) st.tree.degree = some st' ∧
      (∀ k f, Search st' k f = Search st k f) ∧
      (∀ a b f1 f2, SearchRange st' a b f1 f2 = SearchRange st a b f1 f2) := by
  refine ⟨st, ?_, fun _ _ => rfl, fun _ _ _ _ => rfl⟩
  obtain ⟨⟨r, d⟩, pgr⟩ := st
  obtain ⟨dat, len, fs, np⟩ := pgr
  simp only at hroot hdeg hsz hnp hne
  subst hroot hsz hnp
  unfold NewBPlusTree reopenPager openPager
  rw [if_neg hdeg, if_neg hne]

/-- Witness for the amended C7 at the concrete one-insert state. -/
theorem reopen_preserves_queries_witness :
    (s3_1.tree.rootPageID = 0 ∧ ¬ s3_1.tree.degree < 3 ∧
      s3_1.pager.fileSize = (s3_1.pager.fileLen : Int) ∧
      s3_1.pager.numPages = (s3_1.pager.fileLen : Int) / 4096 ∧
      s3_1.pager.numPages ≠ 0) ∧
    (∃ st', NewBPlusTree (reopenPager s3_1.pager) s3_1.tree.degree = some st' ∧
      (∀ k f, Search st' k f = Search s3_1 k f) ∧
      (∀ a b f1 f2, SearchRange st' a b f1 f2 = SearchRange s3_1 a b f1 f2)) := by
  have wrt : s3_1.tree.rootPageID = 0 := by decide
  have wdg : ¬ s3_1.tree.degree < 3 := by decide
  have wfs : s3_1.pager.fileSize = (s3_1.pager.fileLen : Int) := by decide
  have wnp : s3_1.pager.numPages = (s3_1.pager.fileLen : Int) / 4096 := by decide
  have wnz : s3_1.pager.numPages ≠ 0 := by decide
  exact ⟨⟨wrt, wdg, wfs, wnp, wnz⟩,
    reopen_preserves_queries s3_1 wrt wdg wfs wnp wnz⟩

/-- C1 (code bug): all inserts succeed; before the last insert `Search(10)`
returns (100, true); `Insert(15, 150)` succeeds, but afterwards `Search(15)`
returns (0, false) — the freshly inserted key is unreachable — and
`Search(10)` returns (0, false) — another key's result changed.  The buggy
byte shift in `insertIntoParent` destroyed the root separator 20. -/
theorem insert_then_search_bug :
    (Insert s3_0 10 100 32).1 = none ∧
    (Insert s3_1 20 200 32).1 = none ∧
    (Insert s3_2 30 300 32).1 = none ∧
    (Insert s3_3 5 50 32).1 = none ∧
    Search s3_4 10 32 = .ok (100, true) ∧
    (Insert s3_4 15 150 32).1 = none ∧
    Search s3_5 15 32 = .ok (0, false) ∧
    Search s3_5 10 32 = .ok (0, false) := by
  decide

/-- C2 (code bug): splicing promoted key 10 with right child 3 into the
non-full root page 2 of `s3_4` (one separator 20, children 0 and 1): the
result has separators [10, 0] and children [0, 3, 1] — the old pair list is
NOT the spliced sequence [10, 20] / [0, 3, 1]: separator 20 is destroyed and
a stale 0 shifts into the key slot, because the `copy` starts 8 bytes too
far (at `ptrStart+16` instead of the displaced slot `ptrStart+8`). -/
theorem insert_into_parent_splice_bug :
    getNumKeysN (filePage s3_4.pager 2) = 1 ∧
    readInternalKeys (filePage s3_4.pager 2) 1 = [20] ∧
    readChildPIDs (filePage s3_4.pager 2) 2 = [0, 1] ∧
    (insertIntoParent s3_4 2 0 10 3 32).1 = none ∧
    getNumKeysN (filePage (insertIntoParent s3_4 2 0 10 3 32).2.pager 2) = 2 ∧
    readInternalKeys (filePage (insertIntoParent s3_4 2 0 10 3 32).2.pager 2) 2 = [10, 0] ∧
    readChildPIDs (filePage (insertIntoParent s3_4 2 0 10 3 32).2.pager 2) 3 = [0, 3, 1] ∧
    ([10, 0] : List Int) ≠ [10, 20] := by
  decide

/-- C3 (code bug): after the five successful inserts of the scenario the
root page (an internal page) stores keys [10, 0], which are not strictly
increasing — invariant I2 is violated after a completed top-level insert. -/
theorem node_ordering_violated :
    s3_5.tree.rootPageID = 2 ∧
    isLeafP (filePage s3_5.pager 2) = false ∧
    getNumKeysN (filePage s3_5.pager 2) = 2 ∧
    readInternalKeys (filePage s3_5.pager 2) 2 = [10, 0] ∧
    ¬ List.Pairwise (fun x y => x < y) [(10 : Int), 0] := by
  decide

end BTreeGo

namespace BTreeGo

/-- The per-leaf scan collects exactly the offsets of in-range entries when
the leaf's keys are sorted (entries after a key beyond the bound are also
beyond it). -/
theorem scanEntries_fst (a b : Int) :
    ∀ es : List (Int × Int), List.Pairwise (fun x y => x.1 ≤ y.1) es →
      (scanEntries es a b).1 =
        (es.filter fun e => decide (a ≤ e.1 ∧ e.1 ≤ b)).map Prod.snd := by
  intro es
  induction es with
  | nil => intro _; rfl
  | cons hd tl ih =>
    intro hp
    obtain ⟨ck, cv⟩ := hd
    rw [List.pairwise_cons] at hp
    simp only [scanEntries]
    by_cases hb : b < ck
    · rw [if_pos hb]
      have h2 : (((ck, cv) :: tl).filter fun e => decide (a ≤ e.1 ∧ e.1 ≤ b)) = [] := by
        rw [List.filter_eq_nil]
        intro e he
        simp only [decide_eq_true_eq, not_and, not_le]
        rcases List.mem_cons.mp he with rfl | he'
        · intro _; exact hb
        · intro _
          have := hp.1 e he'
          omega
      rw [h2]
      rfl
    · rw [if_neg hb]
      rw [List.filter_cons]
      by_cases ha : a ≤ ck
      · have hdec : (decide (a ≤ ((ck, cv) : Int × Int).1 ∧ ((ck, cv) : Int × Int).1 ≤ b)) = true := by
          simp only [decide_eq_true_eq]
          exact ⟨ha, by omega⟩
        rw [if_pos ha, hdec]
        simp only [if_true, List.map_cons]
        rw [ih hp.2]
      · have hdec : (decide (a ≤ ((ck, cv) : Int × Int).1 ∧ ((ck, cv) : Int × Int).1 ≤ b)) = false := by
          simp only [decide_eq_false_iff_not, not_and]
          intro hc; exact absurd hc ha
        rw [if_neg ha, hdec]
        exact ih hp.2

/-- If the per-leaf scan reports `foundEnd`, some entry of the leaf has a
key beyond the upper bound. -/
theorem scanEntries_found (a b : Int) :
    ∀ es : List (Int × Int), (scanEntries es a b).2 = true → ∃ e ∈ es, b < e.1 := by
  intro es
  induction es with
  | nil => intro h; exact absurd h (by simp [scanEntries])
  | cons hd tl ih =>
    obtain ⟨ck, cv⟩ := hd
    intro h
    simp only [scanEntries] at h
    by_cases hb : b < ck
    · exact ⟨(ck, cv), List.mem_cons_self _ _, hb⟩
    · rw [if_neg hb] at h
      by_cases ha : a ≤ ck
      · rw [if_pos ha] at h
        obtain ⟨e, he, hbe⟩ := ih h
        exact ⟨e, List.mem_cons_of_mem _ he, hbe⟩
      · rw [if_neg ha] at h
        obtain ⟨e, he, hbe⟩ := ih h
        exact ⟨e, List.mem_cons_of_mem _ he, hbe⟩

/-- The leaf walk of `SearchRange` returns exactly the offsets of the
in-range entries of the (sorted) chain it starts on. -/
theorem walkRange_filter (p : Pager) (a b : Int) :
    ∀ (fuel : Nat) (pid : Int) (es : List (Int × Int)),
      chainEntries p pid fuel = some es →
      List.Pairwise (fun x y => x.1 ≤ y.1) es →
      walkRange p a b pid fuel =
        .ok ((es.filter fun e => decide (a ≤ e.1 ∧ e.1 ≤ b)).map Prod.snd) := by
  intro fuel
  induction fuel with
  | zero =>
    intro pid es hch hp
    simp only [chainEntries] at hch
    by_cases hpid : pid = -1
    · rw [if_pos hpid] at hch
      injection hch with h
      subst h
      simp only [walkRange]
      rw [if_pos hpid]
      rfl
    · rw [if_neg hpid] at hch
      cases hch
  | succ m ih =>
    intro pid es hch hp
    simp only [chainEntries] at hch
    by_cases hpid : pid = -1
    · rw [if_pos hpid] at hch
      injection hch with h
      subst h
      simp only [walkRange]
      rw [if_pos hpid]
      rfl
    · rw [if_neg hpid] at hch
      rcases hrd : ReadPage p pid with e | pg
      · rw [hrd] at hch
        cases hch
      · rw [hrd] at hch
        simp only at hch
        by_cases hleaf : isLeafP pg
        · rw [if_pos hleaf] at hch
          rcases hch2 : chainEntries p (getNextLeaf pg) m with _ | es'
          · rw [hch2] at hch
            cases hch
          · rw [hch2] at hch
            simp only [Option.map_some'] at hch
            injection hch with hes
            subst hes
            rw [List.pairwise_append] at hp
            obtain ⟨hpl, hpr, hcross⟩ := hp
            simp only [walkRange]
            rw [if_neg hpid]
            split
            · rename_i e heq
              rw [hrd] at heq
              cases heq
            · rename_i pg' heq
              rw [hrd] at heq
              injection heq with hpg
              subst hpg
              by_cases hfe :
                  (scanEntries (readLeafEntries pg (getNumKeysN pg)) a b).2 = true
              · rw [if_pos hfe]
                obtain ⟨e0, he0, hbe0⟩ := scanEntries_found a b _ hfe
                have hnil : (es'.filter fun e => decide (a ≤ e.1 ∧ e.1 ≤ b)) = [] := by
                  rw [List.filter_eq_nil]
                  intro e he
                  simp only [decide_eq_true_eq, not_and, not_le]
                  intro _
                  have := hcross e0 he0 e he
                  omega
                rw [List.filter_append, hnil, List.append_nil,
                  scanEntries_fst a b _ hpl]
              · rw [if_neg hfe]
                rw [ih (getNextLeaf pg) es' hch2 hpr]
                simp only []
                rw [scanEntries_fst a b _ hpl, List.filter_append, List.map_append]
        · rw [if_neg hleaf] at hch
          cases hch

/-- C8 amended: if the descent for `a` lands on a leaf whose chain holds
entries `es`, every entry in the leaves before it (`pre`) has key `< a`,
and the full chain `pre ++ es` is sorted by key, then `SearchRange(a, b)`
returns exactly the offsets of the chain entries with keys in `[a, b]`,
in chain order (and the empty list when `a > b`). -/
theorem searchRange_eq_filter (st : TreeState) (a b : Int) (f1 f2 : Nat) (L : Int)
    (pre es : List (Int × Int))
    (hfind : findLeafAux st.pager a st.tree.rootPageID f1 = .ok L)
    (hchain : chainEntries st.pager L f2 = some es)
    (hpre : ∀ e ∈ pre, e.1 < a)
    (hsort : List.Pairwise (fun x y => x.1 ≤ y.1) (pre ++ es)) :
    SearchRange st a b f1 f2 =
      .ok (((pre ++ es).filter fun e => decide (a ≤ e.1 ∧ e.1 ≤ b)).map Prod.snd) := by
  have hfin : (pre.filter fun e => decide (a ≤ e.1 ∧ e.1 ≤ b)) = [] := by
    rw [List.filter_eq_nil]
    intro e he
    have := hpre e he
    simp only [decide_eq_true_eq, not_and, not_le]
    intro h
    omega
  rw [List.filter_append, hfin, List.nil_append]
  unfold SearchRange
  by_cases hab : a > b
  · rw [if_pos hab]
    have hnil : (es.filter fun e => decide (a ≤ e.1 ∧ e.1 ≤ b)) = [] := by
      rw [List.filter_eq_nil]
      intro e _
      simp only [decide_eq_true_eq, not_and, not_le]
      intro h
      omega
    rw [hnil]
    rfl
  · rw [if_neg hab]
    split
    · rename_i e heq
      rw [hfind] at heq
      cases heq
    · rename_i L' heq
      rw [hfind] at heq
      injection heq with hL
      subst hL
      exact walkRange_filter st.pager a b f2 L es hchain
        (List.pairwise_append.mp hsort).2.1

/-- Witness for the amended C8 at the one-entry tree. -/
theorem searchRange_eq_filter_witness :
    (findLeafAux s3_1.pager 0 s3_1.tree.rootPageID 32 = .ok 0 ∧
      chainEntries s3_1.pager 0 32 = some [(10, 100)] ∧
      (∀ e : Int × Int, e ∈ ([] : List (Int × Int)) → e.1 < 0) ∧
      List.Pairwise (fun x y => x.1 ≤ y.1) (([] : List (Int × Int)) ++ [(10, 100)])) ∧
    SearchRange s3_1 0 50 32 32 =
      .ok (((([] : List (Int × Int)) ++ [(10, 100)]).filter
        fun e : Int × Int => decide (0 ≤ e.1 ∧ e.1 ≤ 50)).map Prod.snd) := by
  have wfl : findLeafAux s3_1.pager 0 s3_1.tree.rootPageID 32 = .ok 0 := by decide
  have wch : chainEntries s3_1.pager 0 32 = some [(10, 100)] := by decide
  have wpr : ∀ e : Int × Int, e ∈ ([] : List (Int × Int)) → e.1 < 0 := by decide
  have wso : List.Pairwise (fun x y => x.1 ≤ y.1)
      (([] : List (Int × Int)) ++ [(10, 100)]) := by decide
  exact ⟨⟨wfl, wch, wpr, wso⟩,
    searchRange_eq_filter s3_1 0 50 32 32 0 [] [(10, 100)] wfl wch wpr wso⟩

/-- C8 counterexample: in state `s3_5` the leaves form a valid strictly
ascending chain 0 → 3 → 1 holding keys 5, 10, 15, 20, 30, yet
`SearchRange(15, 30)` returns [200, 300] instead of the offsets
[150, 200, 300] of all chain entries with keys in [15, 30]: the corrupted
root separators route the descent for 15 past the leaf holding it. -/
theorem searchRange_misses_entries :
    chainEntries s3_5.pager 0 32 =
      some [(5, 50), (10, 100), (15, 150), (20, 200), (30, 300)] ∧
    List.Pairwise (fun x y => x.1 < y.1)
      ([(5, 50), (10, 100), (15, 150), (20, 200), (30, 300)] : List (Int × Int)) ∧
    findLeafAux s3_5.pager 5 s3_5.tree.rootPageID 32 = .ok 0 ∧
    SearchRange s3_5 15 30 32 32 = .ok [200, 300] ∧
    (([(5, 50), (10, 100), (15, 150), (20, 200), (30, 300)] : List (Int × Int)).filter
      fun e => decide (15 ≤ e.1 ∧ e.1 ≤ 30)).map Prod.snd = [150, 200, 300] ∧
    ([200, 300] : List Int) ≠ [150, 200, 300] := by
  decide

end BTreeGo

namespace BTreeGo

/-! Lemmas about the entry-writing loop and the temp sequence of the leaf
split. -/

theorem writeLeafEntries_outside :
    ∀ (es : List (Int × Int)) (pg : PageFn) (start i : Nat),
      i < 32 + 16 * start ∨ 32 + 16 * start + 16 * es.length ≤ i →
      writeLeafEntries pg es start i = pg i := by
  intro es
  induction es with
  | nil => intro pg start i _; rfl
  | cons hd tl ih =>
    intro pg start i h
    obtain ⟨k, v⟩ := hd
    simp only [List.length_cons] at h
    show writeLeafEntries
      (lePut (lePut pg (32 + 16 * start) 8 (intToU64 k)) (32 + 16 * start + 8) 8 (intToU64 v))
      tl (start + 1) i = pg i
    rw [ih _ (start + 1) i (by omega),
      lePut_outside 8 _ (32 + 16 * start + 8) _ i (by omega),
      lePut_outside 8 _ (32 + 16 * start) _ i (by omega)]

theorem writeLeafEntries_key :
    ∀ (es : List (Int × Int)) (pg : PageFn) (start j : Nat), j < es.length →
      leGet (writeLeafEntries pg es start) (32 + 16 * (start + j)) 8 =
        intToU64 (es.getD j (0, 0)).1 := by
  intro es
  induction es with
  | nil => intro pg start j h; exact absurd h (by simp)
  | cons hd tl ih =>
    intro pg start j h
    obtain ⟨k, v⟩ := hd
    match j with
    | 0 =>
      simp only [Nat.add_zero, List.getD_cons_zero]
      show leGet (writeLeafEntries
        (lePut (lePut pg (32 + 16 * start) 8 (intToU64 k)) (32 + 16 * start + 8) 8 (intToU64 v))
        tl (start + 1)) (32 + 16 * start) 8 = intToU64 k
      rw [leGet_congr 8 _ _ (32 + 16 * start)
          (fun i hi => writeLeafEntries_outside tl _ (start + 1) _ (by omega)),
        leGet_lePut_outside _ 8 (32 + 16 * start + 8) _ 8 (32 + 16 * start) (by omega),
        leGet_lePut_self]
      have hlt := intToU64_lt k
      have h8 : (256 : Nat) ^ 8 = 2 ^ 64 := by norm_num
      rw [h8]
      omega
    | j' + 1 =>
      simp only [List.getD_cons_succ]
      show leGet (writeLeafEntries
        (lePut (lePut pg (32 + 16 * start) 8 (intToU64 k)) (32 + 16 * start + 8) 8 (intToU64 v))
        tl (start + 1)) (32 + 16 * (start + (j' + 1))) 8 = intToU64 (tl.getD j' (0, 0)).1
      rw [show 32 + 16 * (start + (j' + 1)) = 32 + 16 * (start + 1 + j') by ring]
      exact ih _ (start + 1) j' (by simp only [List.length_cons] at h; omega)

theorem writeLeafEntries_val :
    ∀ (es : List (Int × Int)) (pg : PageFn) (start j : Nat), j < es.length →
      leGet (writeLeafEntries pg es start) (32 + 16 * (start + j) + 8) 8 =
        intToU64 (es.getD j (0, 0)).2 := by
  intro es
  induction es with
  | nil => intro pg start j h; exact absurd h (by simp)
  | cons hd tl ih =>
    intro pg start j h
    obtain ⟨k, v⟩ := hd
    match j with
    | 0 =>
      simp only [Nat.add_zero, List.getD_cons_zero]
      show leGet (writeLeafEntries
        (lePut (lePut pg (32 + 16 * start) 8 (intToU64 k)) (32 + 16 * start + 8) 8 (intToU64 v))
        tl (start + 1)) (32 + 16 * start + 8) 8 = intToU64 v
      rw [leGet_congr 8 _ _ (32 + 16 * start + 8)
          (fun i hi => writeLeafEntries_outside tl _ (start + 1) _ (by omega)),
        leGet_lePut_self]
      have hlt := intToU64_lt v
      have h8 : (256 : Nat) ^ 8 = 2 ^ 64 := by norm_num
      rw [h8]
      omega
    | j' + 1 =>
      simp only [List.getD_cons_succ]
      show leGet (writeLeafEntries
        (lePut (lePut pg (32 + 16 * start) 8 (intToU64 k)) (32 + 16 * start + 8) 8 (intToU64 v))
        tl (start + 1)) (32 + 16 * (start + (j' + 1)) + 8) 8 = intToU64 (tl.getD j' (0, 0)).2
      rw [show 32 + 16 * (start + (j' + 1)) + 8 = 32 + 16 * (start + 1 + j') + 8 by ring]
      exact ih _ (start + 1) j' (by simp only [List.length_cons] at h; omega)

theorem getNumKeysN_writeLeafEntries (pg : PageFn) (es : List (Int × Int)) (start : Nat) :
    getNumKeysN (writeLeafEntries pg es start) = getNumKeysN pg :=
  leGet_congr 2 _ _ 16 (fun i hi => writeLeafEntries_outside es pg start (16 + i) (by omega))

theorem getNextLeaf_writeLeafEntries (pg : PageFn) (es : List (Int × Int)) (start : Nat) :
    getNextLeaf (writeLeafEntries pg es start) = getNextLeaf pg := by
  unfold getNextLeaf
  rw [leGet_congr 8 _ _ 24 (fun i hi => writeLeafEntries_outside es pg start (24 + i) (by omega))]

theorem getParentPID_writeLeafEntries (pg : PageFn) (es : List (Int × Int)) (start : Nat) :
    getParentPID (writeLeafEntries pg es start) = getParentPID pg := by
  unfold getParentPID
  rw [leGet_congr 8 _ _ 8 (fun i hi => writeLeafEntries_outside es pg start (8 + i) (by omega))]

theorem readLeafEntries_length (pg : PageFn) (n : Nat) :
    (readLeafEntries pg n).length = n := by
  simp [readLeafEntries]

theorem readLeafEntries_setNextLeafP (pg : PageFn) (x : Int) (n : Nat) :
    readLeafEntries (setNextLeafP pg x) n = readLeafEntries pg n := by
  unfold readLeafEntries leafKey leafVal
  refine List.map_congr_left (fun i _ => ?_)
  unfold setNextLeafP
  rw [leGet_lePut_outside pg 8 24 _ 8 (32 + 16 * i) (by omega),
    leGet_lePut_outside pg 8 24 _ 8 (32 + 16 * i + 8) (by omega)]

theorem readLeafEntries_inRange (pg : PageFn) (n : Nat) :
    ∀ e ∈ readLeafEntries pg n, inRange64 e.1 ∧ inRange64 e.2 := by
  intro e he
  obtain ⟨i, hi, rfl⟩ := List.mem_map.mp he
  dsimp only
  exact ⟨inRange64_u64ToInt_leGet pg (32 + 16 * i),
    inRange64_u64ToInt_leGet pg (32 + 16 * i + 8)⟩

theorem readLeafEntries_writeLeafEntries (pg : PageFn) (es : List (Int × Int))
    (hr : ∀ e ∈ es, inRange64 e.1 ∧ inRange64 e.2) :
    readLeafEntries (writeLeafEntries pg es 0) es.length = es := by
  apply List.ext_getElem
  · simp [readLeafEntries]
  · intro i h1 h2
    simp only [readLeafEntries, List.getElem_map, List.getElem_range]
    have hi : i < es.length := h2
    have hk := writeLeafEntries_key es pg 0 i hi
    have hv := writeLeafEntries_val es pg 0 i hi
    simp only [Nat.zero_add] at hk hv
    have hmem : es.getD i (0, 0) ∈ es := by
      rw [List.getD_eq_getElem es (0, 0) hi]
      exact List.getElem_mem hi
    obtain ⟨hr1, hr2⟩ := hr _ hmem
    unfold leafKey leafVal
    rw [hk, hv, u64ToInt_intToU64 _ hr1.1 hr1.2, u64ToInt_intToU64 _ hr2.1 hr2.2,
      List.getD_eq_getElem es (0, 0) hi]

theorem buildTempLeaf_length :
    ∀ (es : List (Int × Int)) (k v : Int), (buildTempLeaf es k v).length = es.length + 1 := by
  intro es
  induction es with
  | nil => intro k v; rfl
  | cons hd tl ih =>
    intro k v
    obtain ⟨ck, cv⟩ := hd
    simp only [buildTempLeaf]
    split <;> simp [ih]

theorem buildTempLeaf_mem :
    ∀ (es : List (Int × Int)) (k v : Int) (e : Int × Int),
      e ∈ buildTempLeaf es k v → e ∈ es ∨ e = (k, v) := by
  intro es
  induction es with
  | nil =>
    intro k v e he
    simp only [buildTempLeaf, List.mem_singleton] at he
    exact .inr he
  | cons hd tl ih =>
    intro k v e he
    obtain ⟨ck, cv⟩ := hd
    simp only [buildTempLeaf] at he
    split at he
    · rcases List.mem_cons.mp he with rfl | he'
      · exact .inr rfl
      · exact .inl he'
    · rcases List.mem_cons.mp he with rfl | he'
      · exact .inl (List.mem_cons_self _ _)
      · rcases ih k v e he' with h | h
        · exact .inl (List.mem_cons_of_mem _ h)
        · exact .inr h

theorem buildTempLeaf_sorted :
    ∀ (es : List (Int × Int)) (k v : Int),
      List.Pairwise (fun x y => x.1 < y.1) es →
      (∀ e ∈ es, e.1 ≠ k) →
      List.Pairwise (fun x y => x.1 < y.1) (buildTempLeaf es k v) := by
  intro es
  induction es with
  | nil => intro k v _ _; simp [buildTempLeaf]
  | cons hd tl ih =>
    intro k v hp hf
    obtain ⟨ck, cv⟩ := hd
    rw [List.pairwise_cons] at hp
    simp only [buildTempLeaf]
    split
    · rename_i hlt
      rw [List.pairwise_cons]
      refine ⟨?_, List.pairwise_cons.mpr hp⟩
      intro e he
      rcases List.mem_cons.mp he with rfl | he'
      · exact hlt
      · have := hp.1 e he'
        simp only
        omega
    · rename_i hnlt
      have hck : ck < k := by
        have := hf (ck, cv) (List.mem_cons_self _ _)
        simp only at hnlt this
        omega
      rw [List.pairwise_cons]
      refine ⟨?_, ih k v hp.2 (fun e he => hf e (List.mem_cons_of_mem _ he))⟩
      intro e he
      rcases buildTempLeaf_mem tl k v e he with h | rfl
      · exact hp.1 e h
      · exact hck

theorem headD_drop :
    ∀ (l : List (Int × Int)) (n : Nat) (d : Int × Int), (l.drop n).headD d = l.getD n d := by
  intro l
  induction l with
  | nil => intro n d; cases n <;> rfl
  | cons h t ih =>
    intro n d
    cases n with
    | zero => rfl
    | succ m => exact ih m d

theorem toNat_intCast_div2 (dN : Nat) : ((dN : Int) / 2).toNat = dN / 2 := by
  omega

end BTreeGo

namespace BTreeGo

/-! Composite lemmas: page-level readers applied to the file after
`WritePage`. -/

theorem getNumKeysN_filePage_write_same (p : Pager) (pid : Int) (pg : PageFn)
    (h : 0 ≤ pid) :
    getNumKeysN (filePage (WritePage p pid pg).2 pid) = getNumKeysN pg :=
  getNumKeysN_congr _ _ (fun i hi => filePage_WritePage_same p pid pg i h hi)

theorem getNumKeysN_filePage_write_other (p : Pager) (pid pid' : Int) (pg : PageFn)
    (h : 0 ≤ pid) (h' : 0 ≤ pid') (hne : pid' ≠ pid) :
    getNumKeysN (filePage (WritePage p pid pg).2 pid') = getNumKeysN (filePage p pid') :=
  getNumKeysN_congr _ _ (fun i hi => filePage_WritePage_other p pid pid' pg i h h' hne hi)

theorem getNextLeaf_filePage_write_same (p : Pager) (pid : Int) (pg : PageFn)
    (h : 0 ≤ pid) :
    getNextLeaf (filePage (WritePage p pid pg).2 pid) = getNextLeaf pg :=
  getNextLeaf_congr _ _ (fun i hi => filePage_WritePage_same p pid pg i h hi)

theorem getNextLeaf_filePage_write_other (p : Pager) (pid pid' : Int) (pg : PageFn)
    (h : 0 ≤ pid) (h' : 0 ≤ pid') (hne : pid' ≠ pid) :
    getNextLeaf (filePage (WritePage p pid pg).2 pid') = getNextLeaf (filePage p pid') :=
  getNextLeaf_congr _ _ (fun i hi => filePage_WritePage_other p pid pid' pg i h h' hne hi)

theorem getParentPID_filePage_write_same (p : Pager) (pid : Int) (pg : PageFn)
    (h : 0 ≤ pid) :
    getParentPID (filePage (WritePage p pid pg).2 pid) = getParentPID pg :=
  getParentPID_congr _ _ (fun i hi => filePage_WritePage_same p pid pg i h hi)

theorem getParentPID_filePage_write_other (p : Pager) (pid pid' : Int) (pg : PageFn)
    (h : 0 ≤ pid) (h' : 0 ≤ pid') (hne : pid' ≠ pid) :
    getParentPID (filePage (WritePage p pid pg).2 pid') = getParentPID (filePage p pid') :=
  getParentPID_congr _ _ (fun i hi => filePage_WritePage_other p pid pid' pg i h h' hne hi)

theorem readLeafEntries_filePage_write_same (p : Pager) (pid : Int) (pg : PageFn)
    (n : Nat) (hn : 32 + 16 * n ≤ 4096) (h : 0 ≤ pid) :
    readLeafEntries (filePage (WritePage p pid pg).2 pid) n = readLeafEntries pg n :=
  readLeafEntries_congr _ _ n hn (fun i hi => filePage_WritePage_same p pid pg i h hi)

theorem readLeafEntries_filePage_write_other (p : Pager) (pid pid' : Int) (pg : PageFn)
    (n : Nat) (hn : 32 + 16 * n ≤ 4096) (h : 0 ≤ pid) (h' : 0 ≤ pid') (hne : pid' ≠ pid) :
    readLeafEntries (filePage (WritePage p pid pg).2 pid') n =
      readLeafEntries (filePage p pid') n :=
  readLeafEntries_congr _ _ n hn (fun i hi => filePage_WritePage_other p pid pid' pg i h h' hne hi)

theorem readInternalKeys_filePage_write_same (p : Pager) (pid : Int) (pg : PageFn)
    (n : Nat) (hn : 32 + 16 * n + 8 ≤ 4096) (h : 0 ≤ pid) :
    readInternalKeys (filePage (WritePage p pid pg).2 pid) n = readInternalKeys pg n :=
  readInternalKeys_congr _ _ n hn (fun i hi => filePage_WritePage_same p pid pg i h hi)

theorem readInternalKeys_filePage_write_other (p : Pager) (pid pid' : Int) (pg : PageFn)
    (n : Nat) (hn : 32 + 16 * n + 8 ≤ 4096) (h : 0 ≤ pid) (h' : 0 ≤ pid') (hne : pid' ≠ pid) :
    readInternalKeys (filePage (WritePage p pid pg).2 pid') n =
      readInternalKeys (filePage p pid') n :=
  readInternalKeys_congr _ _ n hn (fun i hi => filePage_WritePage_other p pid pid' pg i h h' hne hi)

theorem readChildPIDs_filePage_write_same (p : Pager) (pid : Int) (pg : PageFn)
    (m : Nat) (hm : 32 + 16 * m ≤ 4096) (h : 0 ≤ pid) :
    readChildPIDs (filePage (WritePage p pid pg).2 pid) m = readChildPIDs pg m :=
  readChildPIDs_congr _ _ m hm (fun i hi => filePage_WritePage_same p pid pg i h hi)

theorem readChildPIDs_filePage_write_other (p : Pager) (pid pid' : Int) (pg : PageFn)
    (m : Nat) (hm : 32 + 16 * m ≤ 4096) (h : 0 ≤ pid) (h' : 0 ≤ pid') (hne : pid' ≠ pid) :
    readChildPIDs (filePage (WritePage p pid pg).2 pid') m =
      readChildPIDs (filePage p pid') m :=
  readChildPIDs_congr _ _ m hm (fun i hi => filePage_WritePage_other p pid pid' pg i h h' hne hi)

/-! Small helpers for the split theorems. -/

theorem getNextLeaf_inRange (pg : PageFn) : inRange64 (getNextLeaf pg) :=
  inRange64_u64ToInt_leGet pg 24

theorem getParentPID_inRange (pg : PageFn) : inRange64 (getParentPID pg) :=
  inRange64_u64ToInt_leGet pg 8

theorem leafKey_setNextLeafP (pg : PageFn) (x : Int) (i : Nat) :
    leafKey (setNextLeafP pg x) i = leafKey pg i := by
  unfold leafKey setNextLeafP
  rw [leGet_lePut_outside pg 8 24 _ 8 (32 + 16 * i) (by omega)]

theorem getD_zero_headD (l : List (Int × Int)) : l.getD 0 (0, 0) = l.headD (0, 0) := by
  cases l <;> rfl

theorem leafKey_writeLeafEntries_zero (pg : PageFn) (es : List (Int × Int))
    (h : 0 < es.length) (hr : inRange64 (es.getD 0 (0, 0)).1) :
    leafKey (writeLeafEntries pg es 0) 0 = (es.getD 0 (0, 0)).1 := by
  unfold leafKey
  have hk := writeLeafEntries_key es pg 0 0 h
  simp only [Nat.add_zero] at hk
  rw [hk]
  exact u64ToInt_intToU64 _ hr.1 hr.2

theorem readLeafEntries_writeLeafEntries' (pg : PageFn) (es : List (Int × Int)) (n : Nat)
    (hn : n = es.length) (hr : ∀ e ∈ es, inRange64 e.1 ∧ inRange64 e.2) :
    readLeafEntries (writeLeafEntries pg es 0) n = es := by
  rw [hn]
  exact readLeafEntries_writeLeafEntries pg es hr

end BTreeGo

namespace BTreeGo

theorem leafKey_congr (f g : PageFn) (i : Nat) (hfit : 32 + 16 * i + 16 ≤ 4096)
    (h : ∀ j, j < 4096 → f j = g j) : leafKey f i = leafKey g i := by
  unfold leafKey
  rw [leGet_congr 8 f g (32 + 16 * i) (fun j hj => h _ (by omega))]

theorem leafKey_filePage_write_same (p : Pager) (pid : Int) (pg : PageFn) (i : Nat)
    (hfit : 32 + 16 * i + 16 ≤ 4096) (h : 0 ≤ pid) :
    leafKey (filePage (WritePage p pid pg).2 pid) i = leafKey pg i :=
  leafKey_congr _ _ i hfit (fun j hj => filePage_WritePage_same p pid pg j h hj)

/-- C5: splitting a full leaf (holding `D - 1` sorted keys, the new key
fresh) distributes the `D` temp entries as the first `⌊D/2⌋` to the
original page and the remaining `⌈D/2⌉` to the newly allocated page, the
promoted separator is the first key of the right page (which retains it),
and the sibling links satisfy `new.next_leaf = old pre-split next_leaf` and
`old.next_leaf = new page id`. -/
theorem leaf_split_spec (st : TreeState) (oldPID : Int) (oldPage : PageFn)
    (key value : Int) (dN : Nat) (temp : List (Int × Int))
    (hdeg : st.tree.degree = (dN : Int))
    (hd3 : 3 ≤ dN)
    (hfit : 32 + 16 * dN ≤ 4096)
    (hkey : inRange64 key) (hval : inRange64 value)
    (hpid0 : 0 ≤ oldPID) (hpidlt : oldPID < st.pager.numPages)
    (hnp : st.pager.numPages < 2 ^ 63)
    (hn : getNumKeysN oldPage = dN - 1)
    (hsorted : List.Pairwise (fun x y => x.1 < y.1) (readLeafEntries oldPage (dN - 1)))
    (hfresh : ∀ e ∈ readLeafEntries oldPage (dN - 1), e.1 ≠ key)
    (htemp : temp = buildTempLeaf (readLeafEntries oldPage (dN - 1)) key value) :
    (leafSplitCore st oldPID oldPage key value).err = none ∧
    (leafSplitCore st oldPID oldPage key value).newPID = st.pager.numPages ∧
    temp.length = dN ∧
    List.Pairwise (fun x y => x.1 < y.1) temp ∧
    (leafSplitCore st oldPID oldPage key value).promoted = (temp.getD (dN / 2) (0, 0)).1 ∧
    getNumKeysN (filePage (leafSplitCore st oldPID oldPage key value).st.pager oldPID) =
      dN / 2 ∧
    readLeafEntries (filePage (leafSplitCore st oldPID oldPage key value).st.pager oldPID)
      (dN / 2) = temp.take (dN / 2) ∧
    getNumKeysN (filePage (leafSplitCore st oldPID oldPage key value).st.pager
      st.pager.numPages) = dN - dN / 2 ∧
    readLeafEntries (filePage (leafSplitCore st oldPID oldPage key value).st.pager
      st.pager.numPages) (dN - dN / 2) = temp.drop (dN / 2) ∧
    leafKey (filePage (leafSplitCore st oldPID oldPage key value).st.pager
      st.pager.numPages) 0 = (temp.getD (dN / 2) (0, 0)).1 ∧
    getNextLeaf (filePage (leafSplitCore st oldPID oldPage key value).st.pager
      st.pager.numPages) = getNextLeaf oldPage ∧
    getNextLeaf (filePage (leafSplitCore st oldPID oldPage key value).st.pager oldPID) =
      st.pager.numPages := by
  subst htemp
  have hnum0 : (0 : Int) ≤ st.pager.numPages := by omega
  have hne : oldPID ≠ st.pager.numPages := by omega
  have hentlen : (readLeafEntries oldPage (dN - 1)).length = dN - 1 :=
    readLeafEntries_length _ _
  have htlen : (buildTempLeaf (readLeafEntries oldPage (dN - 1)) key value).length = dN := by
    rw [buildTempLeaf_length, hentlen]; omega
  have htsorted := buildTempLeaf_sorted _ key value hsorted hfresh
  have htr : ∀ e ∈ buildTempLeaf (readLeafEntries oldPage (dN - 1)) key value,
      inRange64 e.1 ∧ inRange64 e.2 := by
    intro e he
    rcases buildTempLeaf_mem _ key value e he with h | h
    · exact readLeafEntries_inRange oldPage _ e h
    · subst h; exact ⟨hkey, hval⟩
  have hsltT : dN / 2 <
      (buildTempLeaf (readLeafEntries oldPage (dN - 1)) key value).length := by
    rw [htlen]; omega
  have hmemS : (buildTempLeaf (readLeafEntries oldPage (dN - 1)) key value).getD
      (dN / 2) (0, 0) ∈ buildTempLeaf (readLeafEntries oldPage (dN - 1)) key value := by
    rw [List.getD_eq_getElem _ (0, 0) hsltT]
    exact List.getElem_mem hsltT
  have hrS : inRange64 (((buildTempLeaf (readLeafEntries oldPage (dN - 1)) key value).getD
      (dN / 2) (0, 0)).1) := (htr _ hmemS).1
  have hdropS : ((buildTempLeaf (readLeafEntries oldPage (dN - 1)) key value).drop
      (dN / 2)).getD 0 (0, 0) =
      (buildTempLeaf (readLeafEntries oldPage (dN - 1)) key value).getD (dN / 2) (0, 0) := by
    rw [getD_zero_headD, headD_drop]
  simp only [leafSplitCore]
  dsimp only [AllocatePage]
  rw [WritePage_fst _ _ _ hpid0]
  dsimp only
  rw [WritePage_fst _ _ _ hnum0]
  dsimp only
  rw [hn, hdeg, toNat_intCast_div2]
  refine ⟨rfl, rfl, htlen, htsorted, ?ga, ?gb, ?gc, ?gd, ?ge, ?gf, ?gg, ?gh⟩
  · rw [headD_drop]
  · rw [getNumKeysN_filePage_write_other _ _ _ _ hnum0 hpid0 hne,
      getNumKeysN_filePage_write_same _ _ _ hpid0,
      getNumKeysN_setNextLeafP, getNumKeysN_writeLeafEntries,
      getNumKeysN_setNumKeysP _ _ (by rw [List.length_take, htlen]; omega),
      List.length_take, htlen]
    omega
  · rw [readLeafEntries_filePage_write_other _ _ _ _ _ (by omega) hnum0 hpid0 hne,
      readLeafEntries_filePage_write_same _ _ _ _ (by omega) hpid0,
      readLeafEntries_setNextLeafP,
      readLeafEntries_writeLeafEntries' _ _ _ (by rw [List.length_take, htlen]; omega)
        (fun e he => htr e (List.take_subset _ _ he))]
  · rw [getNumKeysN_filePage_write_same _ _ _ hnum0,
      getNumKeysN_setNextLeafP, getNumKeysN_writeLeafEntries,
      getNumKeysN_setNumKeysP _ _ (by rw [List.length_drop, htlen]; omega),
      List.length_drop, htlen]
  · rw [readLeafEntries_filePage_write_same _ _ _ _ (by omega) hnum0,
      readLeafEntries_setNextLeafP,
      readLeafEntries_writeLeafEntries' _ _ _ (by rw [List.length_drop, htlen])
        (fun e he => htr e (List.drop_subset _ _ he))]
  · rw [leafKey_filePage_write_same _ _ _ 0 (by omega) hnum0,
      leafKey_setNextLeafP,
      leafKey_writeLeafEntries_zero _ _ (by rw [List.length_drop, htlen]; omega)
        (hdropS ▸ hrS),
      hdropS]
  · rw [getNextLeaf_filePage_write_same _ _ _ hnum0,
      getNextLeaf_setNextLeafP _ _ (getNextLeaf_inRange _),
      getNextLeaf_writeLeafEntries, getNextLeaf_setNumKeysP, getNextLeaf_clearFrom32]
  · rw [getNextLeaf_filePage_write_other _ _ _ _ hnum0 hpid0 hne,
      getNextLeaf_filePage_write_same _ _ _ hpid0,
      getNextLeaf_setNextLeafP _ _ ⟨by omega, hnp⟩]

end BTreeGo

namespace BTreeGo

/-- Witness for C5: splitting the full leaf 0 of `s3_2` (keys 10, 20,
degree 3) by inserting key 15. -/
theorem leaf_split_spec_witness :
    (s3_2.tree.degree = ((3 : Nat) : Int) ∧ 3 ≤ 3 ∧ 32 + 16 * 3 ≤ 4096 ∧
      inRange64 15 ∧ inRange64 150 ∧ (0 : Int) ≤ 0 ∧ (0 : Int) < s3_2.pager.numPages ∧
      s3_2.pager.numPages < 2 ^ 63 ∧
      getNumKeysN (filePage s3_2.pager 0) = 3 - 1 ∧
      List.Pairwise (fun x y => x.1 < y.1)
        (readLeafEntries (filePage s3_2.pager 0) (3 - 1)) ∧
      (∀ e ∈ readLeafEntries (filePage s3_2.pager 0) (3 - 1), e.1 ≠ 15) ∧
      ([(10, 100), (15, 150), (20, 200)] : List (Int × Int)) =
        buildTempLeaf (readLeafEntries (filePage s3_2.pager 0) (3 - 1)) 15 150) ∧
    ((leafSplitCore s3_2 0 (filePage s3_2.pager 0) 15 150).err = none ∧
      (leafSplitCore s3_2 0 (filePage s3_2.pager 0) 15 150).newPID = s3_2.pager.numPages ∧
      ([(10, 100), (15, 150), (20, 200)] : List (Int × Int)).length = 3 ∧
      List.Pairwise (fun x y => x.1 < y.1)
        ([(10, 100), (15, 150), (20, 200)] : List (Int × Int)) ∧
      (leafSplitCore s3_2 0 (filePage s3_2.pager 0) 15 150).promoted =
        (([(10, 100), (15, 150), (20, 200)] : List (Int × Int)).getD (3 / 2) (0, 0)).1 ∧
      getNumKeysN (filePage (leafSplitCore s3_2 0 (filePage s3_2.pager 0) 15 150).st.pager 0) =
        3 / 2 ∧
      readLeafEntries
        (filePage (leafSplitCore s3_2 0 (filePage s3_2.pager 0) 15 150).st.pager 0) (3 / 2) =
        ([(10, 100), (15, 150), (20, 200)] : List (Int × Int)).take (3 / 2) ∧
      getNumKeysN (filePage (leafSplitCore s3_2 0 (filePage s3_2.pager 0) 15 150).st.pager
        s3_2.pager.numPages) = 3 - 3 / 2 ∧
      readLeafEntries (filePage (leafSplitCore s3_2 0 (filePage s3_2.pager 0) 15 150).st.pager
        s3_2.pager.numPages) (3 - 3 / 2) =
        ([(10, 100), (15, 150), (20, 200)] : List (Int × Int)).drop (3 / 2) ∧
      leafKey (filePage (leafSplitCore s3_2 0 (filePage s3_2.pager 0) 15 150).st.pager
        s3_2.pager.numPages) 0 =
        (([(10, 100), (15, 150), (20, 200)] : List (Int × Int)).getD (3 / 2) (0, 0)).1 ∧
      getNextLeaf (filePage (leafSplitCore s3_2 0 (filePage s3_2.pager 0) 15 150).st.pager
        s3_2.pager.numPages) = getNextLeaf (filePage s3_2.pager 0) ∧
      getNextLeaf
        (filePage (leafSplitCore s3_2 0 (filePage s3_2.pager 0) 15 150).st.pager 0) =
        s3_2.pager.numPages) := by
  have vdg : s3_2.tree.degree = ((3 : Nat) : Int) := by decide
  have vd3 : 3 ≤ 3 := by decide
  have vft : 32 + 16 * 3 ≤ 4096 := by decide
  have vkr : inRange64 15 := by decide
  have vvr : inRange64 150 := by decide
  have vp0 : (0 : Int) ≤ 0 := by decide
  have vpl : (0 : Int) < s3_2.pager.numPages := by decide
  have vnp : s3_2.pager.numPages < 2 ^ 63 := by decide
  have vnk : getNumKeysN (filePage s3_2.pager 0) = 3 - 1 := by decide
  have vso : List.Pairwise (fun x y => x.1 < y.1)
      (readLeafEntries (filePage s3_2.pager 0) (3 - 1)) := by decide
  have vfr : ∀ e ∈ readLeafEntries (filePage s3_2.pager 0) (3 - 1), e.1 ≠ 15 := by decide
  have vtm : ([(10, 100), (15, 150), (20, 200)] : List (Int × Int)) =
      buildTempLeaf (readLeafEntries (filePage s3_2.pager 0) (3 - 1)) 15 150 := by decide
  exact ⟨⟨vdg, vd3, vft, vkr, vvr, vp0, vpl, vnp, vnk, vso, vfr, vtm⟩,
    leaf_split_spec s3_2 0 (filePage s3_2.pager 0) 15 150 3
      [(10, 100), (15, 150), (20, 200)] vdg vd3 vft vkr vvr vp0 vpl vnp vnk vso vfr vtm⟩

end BTreeGo

namespace BTreeGo

/-! Lemmas for the internal-node split: the pair-writing loop, the splice
of the temp sequences, and the child-reparenting loop. -/

theorem writePairs_outside :
    ∀ (prs : List (Int × Int)) (pg : PageFn) (start i : Nat),
      i < 32 + 16 * start + 8 ∨ 32 + 16 * (start + prs.length) + 8 ≤ i →
      writePairs pg prs start i = pg i := by
  intro prs
  induction prs with
  | nil => intro pg start i _; rfl
  | cons hd tl ih =>
    intro pg start i h
    obtain ⟨k, pt⟩ := hd
    simp only [List.length_cons] at h
    show writePairs
      (lePut (lePut pg (32 + 16 * start + 8) 8 (intToU64 k)) (32 + 16 * start + 16) 8
        (intToU64 pt)) tl (start + 1) i = pg i
    rw [ih _ (start + 1) i (by omega),
      lePut_outside 8 _ (32 + 16 * start + 16) _ i (by omega),
      lePut_outside 8 _ (32 + 16 * start + 8) _ i (by omega)]

theorem writePairs_key :
    ∀ (prs : List (Int × Int)) (pg : PageFn) (start j : Nat), j < prs.length →
      leGet (writePairs pg prs start) (32 + 16 * (start + j) + 8) 8 =
        intToU64 (prs.getD j (0, 0)).1 := by
  intro prs
  induction prs with
  | nil => intro pg start j h; exact absurd h (by simp)
  | cons hd tl ih =>
    intro pg start j h
    obtain ⟨k, pt⟩ := hd
    match j with
    | 0 =>
      simp only [Nat.add_zero, List.getD_cons_zero]
      show leGet (writePairs
        (lePut (lePut pg (32 + 16 * start + 8) 8 (intToU64 k)) (32 + 16 * start + 16) 8
          (intToU64 pt)) tl (start + 1)) (32 + 16 * start + 8) 8 = intToU64 k
      rw [leGet_congr 8 _ _ (32 + 16 * start + 8)
          (fun i hi => writePairs_outside tl _ (start + 1) _ (by omega)),
        leGet_lePut_outside _ 8 (32 + 16 * start + 16) _ 8 (32 + 16 * start + 8) (by omega),
        leGet_lePut_self]
      have hlt := intToU64_lt k
      have h8 : (256 : Nat) ^ 8 = 2 ^ 64 := by norm_num
      rw [h8]
      omega
    | j' + 1 =>
      simp only [List.getD_cons_succ]
      show leGet (writePairs
        (lePut (lePut pg (32 + 16 * start + 8) 8 (intToU64 k)) (32 + 16 * start + 16) 8
          (intToU64 pt)) tl (start + 1)) (32 + 16 * (start + (j' + 1)) + 8) 8 =
        intToU64 (tl.getD j' (0, 0)).1
      rw [show 32 + 16 * (start + (j' + 1)) + 8 = 32 + 16 * (start + 1 + j') + 8 by ring]
      exact ih _ (start + 1) j' (by simp only [List.length_cons] at h; omega)

theorem writePairs_ptr :
    ∀ (prs : List (Int × Int)) (pg : PageFn) (start j : Nat), j < prs.length →
      leGet (writePairs pg prs start) (32 + 16 * (start + j) + 16) 8 =
        intToU64 (prs.getD j (0, 0)).2 := by
  intro prs
  induction prs with
  | nil => intro pg start j h; exact absurd h (by simp)
  | cons hd tl ih =>
    intro pg start j h
    obtain ⟨k, pt⟩ := hd
    match j with
    | 0 =>
      simp only [Nat.add_zero, List.getD_cons_zero]
      show leGet (writePairs
        (lePut (lePut pg (32 + 16 * start + 8) 8 (intToU64 k)) (32 + 16 * start + 16) 8
          (intToU64 pt)) tl (start + 1)) (32 + 16 * start + 16) 8 = intToU64 pt
      rw [leGet_congr 8 _ _ (32 + 16 * start + 16)
          (fun i hi => writePairs_outside tl _ (start + 1) _ (by omega)),
        leGet_lePut_self]
      have hlt := intToU64_lt pt
      have h8 : (256 : Nat) ^ 8 = 2 ^ 64 := by norm_num
      rw [h8]
      omega
    | j' + 1 =>
      simp only [List.getD_cons_succ]
      show leGet (writePairs
        (lePut (lePut pg (32 + 16 * start + 8) 8 (intToU64 k)) (32 + 16 * start + 16) 8
          (intToU64 pt)) tl (start + 1)) (32 + 16 * (start + (j' + 1)) + 16) 8 =
        intToU64 (tl.getD j' (0, 0)).2
      rw [show 32 + 16 * (start + (j' + 1)) + 16 = 32 + 16 * (start + 1 + j') + 16 by ring]
      exact ih _ (start + 1) j' (by simp only [List.length_cons] at h; omega)

theorem zip_tail_getD :
    ∀ (ks ps : List Int) (j : Nat), j < ks.length → ps.length = ks.length + 1 →
      (ks.zip ps.tail).getD j (0, 0) = (ks.getD j 0, ps.getD (j + 1) 0) := by
  intro ks
  induction ks with
  | nil => intro ps j h _; exact absurd h (by simp)
  | cons a t ih =>
    intro ps j h hlen
    rcases ps with _ | ⟨p0, pt⟩
    · simp at hlen
    rcases pt with _ | ⟨p1, pt'⟩
    · simp at hlen
    rcases j with _ | j'
    · rfl
    · exact ih (p1 :: pt') j' (by simp only [List.length_cons] at h; omega)
        (by simp only [List.length_cons] at hlen ⊢; omega)

theorem getNumKeysN_writeInternalNode (pg : PageFn) (ks ps : List Int) :
    getNumKeysN (writeInternalNode pg ks ps) = getNumKeysN pg := by
  unfold writeInternalNode
  refine leGet_congr 2 _ _ 16 (fun i hi => ?_)
  rw [writePairs_outside _ _ 0 _ (by omega), lePut_outside 8 pg 32 _ _ (by omega)]

theorem getParentPID_writeInternalNode (pg : PageFn) (ks ps : List Int) :
    getParentPID (writeInternalNode pg ks ps) = getParentPID pg := by
  unfold writeInternalNode getParentPID
  rw [leGet_congr 8 _ _ 8 (fun i hi => by
    rw [writePairs_outside _ _ 0 _ (by omega), lePut_outside 8 pg 32 _ _ (by omega)])]

theorem readInternalKeys_inRange (pg : PageFn) (n : Nat) :
    ∀ x ∈ readInternalKeys pg n, inRange64 x := by
  intro x hx
  obtain ⟨i, hi, rfl⟩ := List.mem_map.mp hx
  exact inRange64_u64ToInt_leGet pg (32 + 16 * i + 8)

theorem readChildPIDs_inRange (pg : PageFn) (m : Nat) :
    ∀ x ∈ readChildPIDs pg m, inRange64 x := by
  intro x hx
  obtain ⟨i, hi, rfl⟩ := List.mem_map.mp hx
  exact inRange64_u64ToInt_leGet pg (32 + 16 * i)

theorem readInternalKeys_writeInternalNode (pg : PageFn) (ks ps : List Int) (n : Nat)
    (hn : n = ks.length) (hlen : ps.length = ks.length + 1)
    (hr : ∀ x ∈ ks, inRange64 x) :
    readInternalKeys (writeInternalNode pg ks ps) n = ks := by
  subst hn
  apply List.ext_getElem
  · simp [readInternalKeys]
  · intro j h1 h2
    simp only [readInternalKeys, List.getElem_map, List.getElem_range]
    have hzlen : j < (ks.zip ps.tail).length := by
      rw [List.length_zip, List.length_tail, hlen]
      omega
    have hk := writePairs_key (ks.zip ps.tail) (lePut pg 32 8 (intToU64 (ps.headD 0))) 0 j hzlen
    simp only [Nat.zero_add] at hk
    unfold intlKey writeInternalNode
    rw [hk, zip_tail_getD ks ps j h2 hlen]
    have hmem : ks.getD j 0 ∈ ks := by
      rw [List.getD_eq_getElem ks 0 h2]
      exact List.getElem_mem h2
    obtain ⟨hr1, hr2⟩ := hr _ hmem
    rw [u64ToInt_intToU64 _ hr1 hr2, List.getD_eq_getElem ks 0 h2]

theorem readChildPIDs_writeInternalNode (pg : PageFn) (ks ps : List Int) (m : Nat)
    (hm : m = ps.length) (hlen : ps.length = ks.length + 1)
    (hr : ∀ x ∈ ps, inRange64 x) :
    readChildPIDs (writeInternalNode pg ks ps) m = ps := by
  subst hm
  apply List.ext_getElem
  · simp [readChildPIDs]
  · intro j h1 h2
    simp only [readChildPIDs, List.getElem_map, List.getElem_range]
    unfold childPID writeInternalNode
    match j with
    | 0 =>
      rw [leGet_congr 8 _ _ (32 + 16 * 0)
          (fun i hi => writePairs_outside _ _ 0 _ (by omega)),
        show 32 + 16 * 0 = 32 by norm_num, leGet_lePut_self]
      have hps : ps.headD 0 = ps[0] := by
        rw [← List.getD_eq_getElem ps 0 h2]
        cases ps <;> rfl
      have hmem : ps.headD 0 ∈ ps := by
        rw [hps]
        exact List.getElem_mem h2
      obtain ⟨hr1, hr2⟩ := hr _ hmem
      have hlt := intToU64_lt (ps.headD 0)
      have h8 : (256 : Nat) ^ 8 = 2 ^ 64 := by norm_num
      rw [h8, Nat.mod_eq_of_lt hlt, u64ToInt_intToU64 _ hr1 hr2, hps]
    | j' + 1 =>
      have hzlen : j' < (ks.zip ps.tail).length := by
        rw [List.length_zip, List.length_tail, hlen]
        omega
      have hp := writePairs_ptr (ks.zip ps.tail) (lePut pg 32 8 (intToU64 (ps.headD 0))) 0 j' hzlen
      simp only [Nat.zero_add] at hp
      rw [show 32 + 16 * (j' + 1) = 32 + 16 * j' + 16 by ring, hp,
        zip_tail_getD ks ps j' (by rw [hlen] at h2; omega) hlen]
      have hmem : ps.getD (j' + 1) 0 ∈ ps := by
        rw [List.getD_eq_getElem ps 0 h2]
        exact List.getElem_mem h2
      obtain ⟨hr1, hr2⟩ := hr _ hmem
      rw [u64ToInt_intToU64 _ hr1 hr2, List.getD_eq_getElem ps 0 h2]

end BTreeGo

namespace BTreeGo

theorem spliceIndex_le : ∀ (ks : List Int) (k : Int), spliceIndex ks k ≤ ks.length := by
  intro ks
  induction ks with
  | nil => intro k; exact Nat.le_refl 0
  | cons a t ih =>
    intro k
    simp only [spliceIndex, List.length_cons]
    split
    · exact Nat.succ_le_succ (ih k)
    · omega

theorem splice_mem (ks : List Int) (k x : Int) (n : Nat)
    (h : x ∈ ks.take n ++ k :: ks.drop n) : x ∈ ks ∨ x = k := by
  rcases List.mem_append.mp h with h | h
  · exact .inl (List.take_subset _ _ h)
  · rcases List.mem_cons.mp h with h | h
    · exact .inr h
    · exact .inl (List.drop_subset _ _ h)

theorem splice_sorted :
    ∀ (ks : List Int) (k : Int), List.Pairwise (fun x y => x < y) ks →
      (∀ x ∈ ks, x ≠ k) →
      List.Pairwise (fun x y => x < y)
        (ks.take (spliceIndex ks k) ++ k :: ks.drop (spliceIndex ks k)) := by
  intro ks
  induction ks with
  | nil => intro k _ _; simp
  | cons a t ih =>
    intro k hp hf
    rw [List.pairwise_cons] at hp
    simp only [spliceIndex]
    by_cases hgt : k > a
    · rw [if_pos hgt]
      show List.Pairwise _ (a :: (t.take (spliceIndex t k) ++ k :: t.drop (spliceIndex t k)))
      rw [List.pairwise_cons]
      constructor
      · intro x hx
        rcases splice_mem t k x _ hx with h | rfl
        · exact hp.1 x h
        · exact hgt
      · exact ih k hp.2 (fun x hx => hf x (List.mem_cons_of_mem _ hx))
    · rw [if_neg hgt]
      have hak : k < a := by
        have := hf a (List.mem_cons_self _ _)
        omega
      show List.Pairwise _ (k :: a :: t)
      rw [List.pairwise_cons]
      constructor
      · intro x hx
        rcases List.mem_cons.mp hx with rfl | hx'
        · exact hak
        · have := hp.1 x hx'
          omega
      · exact List.pairwise_cons.mpr hp

theorem sorted_getD_notmem (l : List Int) (s : Nat) (hs : s < l.length)
    (hp : List.Pairwise (fun x y => x < y) l) :
    l.getD s 0 ∉ l.take s ∧ l.getD s 0 ∉ l.drop (s + 1) := by
  have hdec : l.take s ++ l[s] :: l.drop (s + 1) = l := by
    rw [List.cons_getElem_drop_succ, List.take_append_drop]
  rw [← hdec] at hp
  rw [List.pairwise_append] at hp
  obtain ⟨hpl, hpr, hcross⟩ := hp
  rw [List.getD_eq_getElem l 0 hs]
  constructor
  · intro hmem
    have := hcross _ hmem l[s] (List.mem_cons_self _ _)
    omega
  · intro hmem
    rw [List.pairwise_cons] at hpr
    have := hpr.1 _ hmem
    omega

theorem reparentChildren_frame (newPID : Int) :
    ∀ (pids : List Int) (p : Pager) (pid : Int) (i : Nat),
      0 ≤ pid → pid ∉ pids → (∀ q ∈ pids, 0 ≤ q) → i < 4096 →
      filePage (reparentChildren p newPID pids) pid i = filePage p pid i := by
  intro pids
  induction pids with
  | nil => intro p pid i _ _ _ _; rfl
  | cons q rest ih =>
    intro p pid i h0 hnin hq hi
    show filePage (reparentChildren
      (WritePage p q (setParentPID (ReadPageRaw p q).1 newPID)).2 newPID rest) pid i = _
    rw [ih _ pid i h0 (fun hc => hnin (List.mem_cons_of_mem _ hc))
      (fun q' hq' => hq q' (List.mem_cons_of_mem _ hq')) hi]
    exact filePage_WritePage_other p q pid _ i (hq q (List.mem_cons_self _ _)) h0
      (fun hc => hnin (hc ▸ List.mem_cons_self _ _)) hi

theorem reparentChildren_parent (newPID : Int) (hr : inRange64 newPID) :
    ∀ (pids : List Int) (p : Pager) (pid : Int),
      pid ∈ pids → (∀ q ∈ pids, 0 ≤ q) →
      getParentPID (filePage (reparentChildren p newPID pids) pid) = newPID := by
  intro pids
  induction pids with
  | nil => intro p pid h _; cases h
  | cons q rest ih =>
    intro p pid hmem hq
    by_cases hin : pid ∈ rest
    · exact ih _ pid hin (fun q' h => hq q' (List.mem_cons_of_mem _ h))
    · have hpq : pid = q := by
        rcases List.mem_cons.mp hmem with h | h
        · exact h
        · exact absurd h hin
      subst hpq
      have h0 : (0 : Int) ≤ pid := hq pid (List.mem_cons_self _ _)
      show getParentPID (filePage (reparentChildren
        (WritePage p pid (setParentPID (ReadPageRaw p pid).1 newPID)).2 newPID rest) pid) =
        newPID
      rw [getParentPID_congr _ _ (fun i hi => reparentChildren_frame newPID rest _ pid i h0
        hin (fun q' h => hq q' (List.mem_cons_of_mem _ h)) hi)]
      rw [getParentPID_filePage_write_same _ _ _ h0, getParentPID_setParentPID _ _ hr]

end BTreeGo

namespace BTreeGo

/-- C4: splitting a full internal node over the spliced temp sequences of
`D` keys and `D+1` pointers with `s = ⌊D/2⌋`: the key at index `s` is
promoted and (keys being strictly sorted) appears in neither resulting
node; the original page keeps keys `[0, s)` and pointers `[0, s+1)`; the
new page receives keys `[s+1, D)` and pointers `[s+1, D+1)`; and every
child pointer moved to the new page has its on-disk `parent_page_id`
rewritten to the new page's id. -/
theorem internal_split_spec (st : TreeState) (parentPID : Int) (parentPage : PageFn)
    (key rightChildID : Int) (dN iI : Nat) (tempKeys tempPtrs : List Int)
    (hdeg : st.tree.degree = (dN : Int))
    (hd3 : 3 ≤ dN)
    (hfit : 40 + 16 * dN ≤ 4096)
    (hkey : inRange64 key) (hrc : inRange64 rightChildID)
    (hpid0 : 0 ≤ parentPID) (hpidlt : parentPID < st.pager.numPages)
    (hnp : st.pager.numPages < 2 ^ 63)
    (hn : getNumKeysN parentPage = dN - 1)
    (hsorted : List.Pairwise (fun x y => x < y) (readInternalKeys parentPage (dN - 1)))
    (hfresh : ∀ x ∈ readInternalKeys parentPage (dN - 1), x ≠ key)
    (hch : ∀ pid ∈ readChildPIDs parentPage dN,
      0 ≤ pid ∧ pid ≠ parentPID ∧ pid < st.pager.numPages)
    (hrcb : 0 ≤ rightChildID ∧ rightChildID ≠ parentPID ∧
      rightChildID < st.pager.numPages)
    (hiI : iI = spliceIndex (readInternalKeys parentPage (dN - 1)) key)
    (htk : tempKeys = (readInternalKeys parentPage (dN - 1)).take iI ++
      key :: (readInternalKeys parentPage (dN - 1)).drop iI)
    (htp : tempPtrs = (readChildPIDs parentPage dN).take (iI + 1) ++
      rightChildID :: (readChildPIDs parentPage dN).drop (iI + 1)) :
    (internalSplitCore st parentPID parentPage key rightChildID).err = none ∧
    (internalSplitCore st parentPID parentPage key rightChildID).newPID =
      st.pager.numPages ∧
    (internalSplitCore st parentPID parentPage key rightChildID).parentPID =
      getParentPID parentPage ∧
    tempKeys.length = dN ∧
    tempPtrs.length = dN + 1 ∧
    List.Pairwise (fun x y => x < y) tempKeys ∧
    (internalSplitCore st parentPID parentPage key rightChildID).promoted =
      tempKeys.getD (dN / 2) 0 ∧
    (tempKeys.getD (dN / 2) 0 ∉ tempKeys.take (dN / 2) ∧
      tempKeys.getD (dN / 2) 0 ∉ tempKeys.drop (dN / 2 + 1)) ∧
    getNumKeysN (filePage
      (internalSplitCore st parentPID parentPage key rightChildID).st.pager parentPID) =
      dN / 2 ∧
    readInternalKeys (filePage
      (internalSplitCore st parentPID parentPage key rightChildID).st.pager parentPID)
      (dN / 2) = tempKeys.take (dN / 2) ∧
    readChildPIDs (filePage
      (internalSplitCore st parentPID parentPage key rightChildID).st.pager parentPID)
      (dN / 2 + 1) = tempPtrs.take (dN / 2 + 1) ∧
    getNumKeysN (filePage
      (internalSplitCore st parentPID parentPage key rightChildID).st.pager
      st.pager.numPages) = dN - 1 - dN / 2 ∧
    readInternalKeys (filePage
      (internalSplitCore st parentPID parentPage key rightChildID).st.pager
      st.pager.numPages) (dN - 1 - dN / 2) = tempKeys.drop (dN / 2 + 1) ∧
    readChildPIDs (filePage
      (internalSplitCore st parentPID parentPage key rightChildID).st.pager
      st.pager.numPages) (dN - dN / 2) = tempPtrs.drop (dN / 2 + 1) ∧
    (∀ pid ∈ tempPtrs.drop (dN / 2 + 1),
      getParentPID (filePage
        (internalSplitCore st parentPID parentPage key rightChildID).st.pager pid) =
        st.pager.numPages) := by
  subst hiI
  subst htk htp
  have hnum0 : (0 : Int) ≤ st.pager.numPages := by omega
  have hnep : parentPID ≠ st.pager.numPages := by omega
  simp only [internalSplitCore]
  dsimp only [AllocatePage]
  rw [WritePage_fst _ _ _ hpid0]
  dsimp only
  rw [WritePage_fst _ _ _ hnum0]
  dsimp only
  rw [hn, hdeg, toNat_intCast_div2, show dN - 1 + 1 = dN from by omega]
  set KS := readInternalKeys parentPage (dN - 1) with hKS
  set PS := readChildPIDs parentPage dN with hPS
  set I := spliceIndex KS key with hI
  have hkslen : KS.length = dN - 1 := by rw [hKS]; simp [readInternalKeys]
  have hpslen : PS.length = dN := by rw [hPS]; simp [readChildPIDs]
  have hiIle : I ≤ dN - 1 := by
    have := spliceIndex_le KS key
    omega
  have htklen : (KS.take I ++ key :: KS.drop I).length = dN := by
    simp only [List.length_append, List.length_cons, List.length_take, List.length_drop,
      hkslen]
    omega
  have htplen : (PS.take (I + 1) ++ rightChildID :: PS.drop (I + 1)).length = dN + 1 := by
    simp only [List.length_append, List.length_cons, List.length_take, List.length_drop,
      hpslen]
    omega
  have htsorted : List.Pairwise (fun x y => x < y) (KS.take I ++ key :: KS.drop I) := by
    rw [hI]
    exact splice_sorted KS key hsorted hfresh
  have hKSr : ∀ x ∈ KS, inRange64 x := by
    rw [hKS]
    exact readInternalKeys_inRange parentPage (dN - 1)
  have hPSr : ∀ x ∈ PS, inRange64 x := by
    rw [hPS]
    exact readChildPIDs_inRange parentPage dN
  have htkr : ∀ x ∈ KS.take I ++ key :: KS.drop I, inRange64 x := by
    intro x hx
    rcases splice_mem KS key x I hx with h | rfl
    · exact hKSr x h
    · exact hkey
  have htpr : ∀ x ∈ PS.take (I + 1) ++ rightChildID :: PS.drop (I + 1), inRange64 x := by
    intro x hx
    rcases splice_mem PS rightChildID x (I + 1) hx with h | rfl
    · exact hPSr x h
    · exact hrc
  have hdropb : ∀ q ∈ (PS.take (I + 1) ++ rightChildID :: PS.drop (I + 1)).drop (dN / 2 + 1),
      0 ≤ q ∧ q ≠ parentPID ∧ q < st.pager.numPages := by
    intro q hq
    rcases splice_mem PS rightChildID q (I + 1) (List.drop_subset _ _ hq) with h | rfl
    · exact hch q h
    · exact hrcb
  have hd253 : dN ≤ 253 := by omega
  refine ⟨rfl, rfl, ?pa, htklen, htplen, htsorted, rfl, ?pb, ?pc, ?pd, ?pe, ?pf, ?pg, ?ph, ?pi⟩
  · rw [getParentPID_writeInternalNode, getParentPID_setNumKeysP, getParentPID_clearFrom32]
  · have hslt : dN / 2 < (KS.take I ++ key :: KS.drop I).length := by rw [htklen]; omega
    exact sorted_getD_notmem _ _ hslt htsorted
  · rw [getNumKeysN_filePage_write_other _ _ _ _ hnum0 hpid0 hnep,
      getNumKeysN_filePage_write_same _ _ _ hpid0,
      getNumKeysN_writeInternalNode,
      getNumKeysN_setNumKeysP _ _ (by rw [List.length_take, htklen]; omega),
      List.length_take, htklen]
    omega
  · rw [readInternalKeys_filePage_write_other _ _ _ _ _ (by omega) hnum0 hpid0 hnep,
      readInternalKeys_filePage_write_same _ _ _ _ (by omega) hpid0,
      readInternalKeys_writeInternalNode _ _ _ _ (by rw [List.length_take, htklen]; omega)
        (by rw [List.length_take, List.length_take, htklen, htplen]; omega)
        (fun x hx => htkr x (List.take_subset _ _ hx))]
  · rw [readChildPIDs_filePage_write_other _ _ _ _ _ (by omega) hnum0 hpid0 hnep,
      readChildPIDs_filePage_write_same _ _ _ _ (by omega) hpid0,
      readChildPIDs_writeInternalNode _ _ _ _ (by rw [List.length_take, htplen]; omega)
        (by rw [List.length_take, List.length_take, htklen, htplen]; omega)
        (fun x hx => htpr x (List.take_subset _ _ hx))]
  · rw [getNumKeysN_filePage_write_same _ _ _ hnum0,
      getNumKeysN_writeInternalNode,
      getNumKeysN_setNumKeysP _ _ (by rw [List.length_drop, htklen]; omega),
      List.length_drop, htklen]
    omega
  · rw [readInternalKeys_filePage_write_same _ _ _ _ (by omega) hnum0,
      readInternalKeys_writeInternalNode _ _ _ _ (by rw [List.length_drop, htklen]; omega)
        (by rw [List.length_drop, List.length_drop, htklen, htplen]; omega)
        (fun x hx => htkr x (List.drop_subset _ _ hx))]
  · rw [readChildPIDs_filePage_write_same _ _ _ _ (by omega) hnum0,
      readChildPIDs_writeInternalNode _ _ _ _ (by rw [List.length_drop, htplen]; omega)
        (by rw [List.length_drop, List.length_drop, htklen, htplen]; omega)
        (fun x hx => htpr x (List.drop_subset _ _ hx))]
  · intro pid hpid
    obtain ⟨hq0, hqp, hqlt⟩ := hdropb pid hpid
    rw [getParentPID_filePage_write_other _ _ _ _ hnum0 hq0 (by omega),
      getParentPID_filePage_write_other _ _ _ _ hpid0 hq0 hqp,
      reparentChildren_parent st.pager.numPages ⟨by omega, hnp⟩ _ _ pid hpid
        (fun q hq => (hdropb q hq).1)]

end BTreeGo

namespace BTreeGo

/-- Witness for C4: splitting the full internal page `c4Parent` at page 2
(degree 3) under promoted key 30 with right child 6. -/
theorem internal_split_spec_witness :
    (c4State.tree.degree = ((3 : Nat) : Int) ∧ 3 ≤ 3 ∧ 40 + 16 * 3 ≤ 4096 ∧
      inRange64 30 ∧ inRange64 6 ∧ (0 : Int) ≤ 2 ∧ (2 : Int) < c4State.pager.numPages ∧
      c4State.pager.numPages < 2 ^ 63 ∧
      getNumKeysN c4Parent = 3 - 1 ∧
      List.Pairwise (fun x y => x < y) (readInternalKeys c4Parent (3 - 1)) ∧
      (∀ x ∈ readInternalKeys c4Parent (3 - 1), x ≠ 30) ∧
      (∀ pid ∈ readChildPIDs c4Parent 3,
        0 ≤ pid ∧ pid ≠ 2 ∧ pid < c4State.pager.numPages) ∧
      ((0 : Int) ≤ 6 ∧ (6 : Int) ≠ 2 ∧ (6 : Int) < c4State.pager.numPages) ∧
      (2 : Nat) = spliceIndex (readInternalKeys c4Parent (3 - 1)) 30 ∧
      ([10, 20, 30] : List Int) = (readInternalKeys c4Parent (3 - 1)).take 2 ++
        30 :: (readInternalKeys c4Parent (3 - 1)).drop 2 ∧
      ([3, 4, 5, 6] : List Int) = (readChildPIDs c4Parent 3).take (2 + 1) ++
        6 :: (readChildPIDs c4Parent 3).drop (2 + 1)) ∧
    ((internalSplitCore c4State 2 c4Parent 30 6).err = none ∧
      (internalSplitCore c4State 2 c4Parent 30 6).newPID = c4State.pager.numPages ∧
      (internalSplitCore c4State 2 c4Parent 30 6).parentPID = getParentPID c4Parent ∧
      ([10, 20, 30] : List Int).length = 3 ∧
      ([3, 4, 5, 6] : List Int).length = 3 + 1 ∧
      List.Pairwise (fun x y => x < y) ([10, 20, 30] : List Int) ∧
      (internalSplitCore c4State 2 c4Parent 30 6).promoted =
        ([10, 20, 30] : List Int).getD (3 / 2) 0 ∧
      (([10, 20, 30] : List Int).getD (3 / 2) 0 ∉ ([10, 20, 30] : List Int).take (3 / 2) ∧
        ([10, 20, 30] : List Int).getD (3 / 2) 0 ∉
          ([10, 20, 30] : List Int).drop (3 / 2 + 1)) ∧
      getNumKeysN (filePage (internalSplitCore c4State 2 c4Parent 30 6).st.pager 2) =
        3 / 2 ∧
      readInternalKeys (filePage (internalSplitCore c4State 2 c4Parent 30 6).st.pager 2)
        (3 / 2) = ([10, 20, 30] : List Int).take (3 / 2) ∧
      readChildPIDs (filePage (internalSplitCore c4State 2 c4Parent 30 6).st.pager 2)
        (3 / 2 + 1) = ([3, 4, 5, 6] : List Int).take (3 / 2 + 1) ∧
      getNumKeysN (filePage (internalSplitCore c4State 2 c4Parent 30 6).st.pager
        c4State.pager.numPages) = 3 - 1 - 3 / 2 ∧
      readInternalKeys (filePage (internalSplitCore c4State 2 c4Parent 30 6).st.pager
        c4State.pager.numPages) (3 - 1 - 3 / 2) =
        ([10, 20, 30] : List Int).drop (3 / 2 + 1) ∧
      readChildPIDs (filePage (internalSplitCore c4State 2 c4Parent 30 6).st.pager
        c4State.pager.numPages) (3 - 3 / 2) = ([3, 4, 5, 6] : List Int).drop (3 / 2 + 1) ∧
      (∀ pid ∈ ([3, 4, 5, 6] : List Int).drop (3 / 2 + 1),
        getParentPID (filePage (internalSplitCore c4State 2 c4Parent 30 6).st.pager pid) =
          c4State.pager.numPages)) := by
  have udg : c4State.tree.degree = ((3 : Nat) : Int) := by decide
  have ud3 : 3 ≤ 3 := by decide
  have uft : 40 + 16 * 3 ≤ 4096 := by decide
  have ukr : inRange64 30 := by decide
  have urr : inRange64 6 := by decide
  have up0 : (0 : Int) ≤ 2 := by decide
  have upl : (2 : Int) < c4State.pager.numPages := by decide
  have unp : c4State.pager.numPages < 2 ^ 63 := by decide
  have unk : getNumKeysN c4Parent = 3 - 1 := by decide
  have uso : List.Pairwise (fun x y => x < y) (readInternalKeys c4Parent (3 - 1)) := by
    decide
  have ufr : ∀ x ∈ readInternalKeys c4Parent (3 - 1), x ≠ 30 := by decide
  have ucb : ∀ pid ∈ readChildPIDs c4Parent 3,
      0 ≤ pid ∧ pid ≠ 2 ∧ pid < c4State.pager.numPages := by decide
  have urb : (0 : Int) ≤ 6 ∧ (6 : Int) ≠ 2 ∧ (6 : Int) < c4State.pager.numPages := by
    decide
  have uii : (2 : Nat) = spliceIndex (readInternalKeys c4Parent (3 - 1)) 30 := by decide
  have utk : ([10, 20, 30] : List Int) = (readInternalKeys c4Parent (3 - 1)).take 2 ++
      30 :: (readInternalKeys c4Parent (3 - 1)).drop 2 := by decide
  have utp : ([3, 4, 5, 6] : List Int) = (readChildPIDs c4Parent 3).take (2 + 1) ++
      6 :: (readChildPIDs c4Parent 3).drop (2 + 1) := by decide
  exact ⟨⟨udg, ud3, uft, ukr, urr, up0, upl, unp, unk, uso, ufr, ucb, urb, uii, utk, utp⟩,
    internal_split_spec c4State 2 c4Parent 30 6 3 2 [10, 20, 30] [3, 4, 5, 6]
      udg ud3 uft ukr urr up0 upl unp unk uso ufr ucb urb uii utk utp⟩

end BTreeGo
